import Mathlib

/-!
A shallow embedding of the storage and execution core of GoDB (a small
teaching-grade relational engine written in Go) together with proofs about
its page serialization, buffer pool, heap file, operator iterators and
aggregation states.

Conventions used throughout:
* Go byte buffers are modelled as `List Nat` (each element a byte value);
  multi-byte integers are laid out little-endian exactly as
  `binary.Write`/`binary.Read` with `binary.LittleEndian` do.
* Go `int64` values are modelled as unbounded `Int` plus explicit
  well-formedness bounds where the 64-bit range matters; truncated (Go)
  integer division is `Int.tdiv`.
* Go maps are modelled as association lists iterated in list order (Go map
  iteration order is unspecified; the claims proved here are either order
  independent or evaluated on states where every iteration order agrees).
* A Go runtime panic (integer division by zero, index out of range) and a
  returned `error` are both modelled as `Option`/`Except` failure.
-/

set_option maxRecDepth 100000

namespace GoDB

/-- Page size in bytes.  Modelled from the spec: the constant `PageSize`
lives in `types.go`, which is not part of the provided sources; the spec
fixes it at 4096. -/
def PageSize : Nat := 4096

/-- Fixed width of serialized strings.  Modelled from the spec: the constant
`StringLength` lives in `types.go`, which is not part of the provided
sources; the spec fixes `STRING_LEN = 32`. -/
def StringLength : Nat := 32

/-- `DBType` from `tuple.go` (the `UnknownType` parser-only constructor is
not needed by any storage operation modelled here). -/
inductive DBType where
  | IntType
  | StringType
deriving DecidableEq, Repr

open DBType

/-- `FieldType` from `tuple.go`. -/
structure FieldType where
  Fname : String
  TableQualifier : String
  Ftype : DBType
deriving DecidableEq, Repr

/-- `TupleDesc` from `tuple.go`. -/
structure TupleDesc where
  Fields : List FieldType
deriving DecidableEq, Repr

/-- `DBValue` from `tuple.go`: either an `IntField` (Go `int64`) or a
`StringField`; the Go string is modelled as its byte sequence. -/
inductive DBValue where
  | IntField (Value : Int)
  | StringField (Value : List Nat)
deriving DecidableEq, Repr

/-- A heap-page record id, `fmt.Sprintf("%d-%d", pageNumber, slot)` in the
source; modelled as the `(pageNo, slotNo)` pair that the string encodes and
that `HeapFile.deleteTuple` parses back out of it. -/
abbrev RecordID := Nat × Nat

/-- `Tuple` from `tuple.go`.  `Rid` is `none` for the Go `nil` record id. -/
structure Tuple where
  Desc : TupleDesc
  Fields : List DBValue
  Rid : Option RecordID
deriving DecidableEq, Repr

/-- Serialized size in bytes of one field of the given type (8 for INT,
`StringLength` for STRING), as computed in `newHeapPage` and
`newColumnPage`. -/
def fieldSize : DBType → Nat
  | IntType => 8
  | StringType => StringLength

/-- Serialized size in bytes of one tuple of the given descriptor
(`perTupleSize` in `newHeapPage`). -/
def tupleSizeOf (d : TupleDesc) : Nat :=
  (d.Fields.map (fun f => fieldSize f.Ftype)).sum

/-! ### Little-endian byte encoding (`binary.Write` / `binary.Read`) -/

/-- Little-endian byte encoding of a natural number into `w` bytes. -/
def natToLE : Nat → Nat → List Nat
  | 0, _ => []
  | w + 1, n => n % 256 :: natToLE w (n / 256)

/-- Little-endian decoding of a byte list into a natural number. -/
def natFromLE : List Nat → Nat
  | [] => 0
  | b :: bs => b + 256 * natFromLE bs

/-- Reading `n` raw bytes off the front of a buffer; fails (as
`binary.Read` does) when the buffer is too short. -/
def readBytes (n : Nat) (buf : List Nat) : Option (List Nat × List Nat) :=
  if n ≤ buf.length then some (buf.take n, buf.drop n) else none

/-- Read a 32-bit little-endian integer (a page-header field). -/
def readU32 (buf : List Nat) : Option (Nat × List Nat) :=
  (readBytes 4 buf).map (fun p => (natFromLE p.1, p.2))

/-- Two's-complement little-endian encoding of a Go `int64`
(`binary.Write` of the value in `writeIntField`). -/
def int64ToLE (v : Int) : List Nat :=
  natToLE 8 (v % (2 ^ 64)).toNat

/-- Decode a Go `int64` from 8 little-endian bytes. -/
def int64FromLE (bs : List Nat) : Int :=
  let n := natFromLE bs
  if n < 2 ^ 63 then (n : Int) else (n : Int) - 2 ^ 64

/-- `writeStringField` from `tuple.go`: copy at most `StringLength` bytes
of the string into a fresh `StringLength`-byte zero buffer and write it. -/
def writeStringField (s : List Nat) : List Nat :=
  let t := s.take StringLength
  t ++ List.replicate (StringLength - t.length) 0

/-- `strings.TrimRight(·, "\x00")`: strip trailing zero bytes. -/
def trimTrailingZeros (s : List Nat) : List Nat :=
  (s.reverse.dropWhile (fun b => b = 0)).reverse

/-- Serialization of one field value (`Tuple.writeTo` dispatch). -/
def writeField : DBValue → List Nat
  | .IntField v => int64ToLE v
  | .StringField s => writeStringField s

/-- `Tuple.writeTo` from `tuple.go`: the fields in sequence.  (The Go
version can only fail on an unsupported dynamic field type, which the
two-constructor `DBValue` model cannot produce.) -/
def Tuple.writeTo (t : Tuple) : List Nat :=
  (t.Fields.map writeField).flatten

/-- `readStringField` from `tuple.go`. -/
def readStringField (buf : List Nat) : Option (List Nat × List Nat) :=
  (readBytes StringLength buf).map (fun p => (trimTrailingZeros p.1, p.2))

/-- `readIntField` from `tuple.go`. -/
def readIntField (buf : List Nat) : Option (Int × List Nat) :=
  (readBytes 8 buf).map (fun p => (int64FromLE p.1, p.2))

/-- Read the field values of one tuple, following the descriptor
(`readTupleFrom` main loop). -/
def readFields : List FieldType → List Nat → Option (List DBValue × List Nat)
  | [], buf => some ([], buf)
  | f :: fs, buf =>
    match f.Ftype with
    | StringType =>
      (readStringField buf).bind fun p =>
        (readFields fs p.2).map fun q => (DBValue.StringField p.1 :: q.1, q.2)
    | IntType =>
      (readIntField buf).bind fun p =>
        (readFields fs p.2).map fun q => (DBValue.IntField p.1 :: q.1, q.2)

/-- `readTupleFrom` from `tuple.go`: deserialize one tuple of descriptor
`d`; the produced tuple has a `nil` record id. -/
def readTupleFrom (buf : List Nat) (d : TupleDesc) : Option (Tuple × List Nat) :=
  (readFields d.Fields buf).map fun p => ({ Desc := d, Fields := p.1, Rid := none }, p.2)

/-! ### Well-formedness of values on a page -/

/-- A Go string value as stored by the engine: its byte sequence fits in
`StringLength` bytes and carries no trailing zero byte (the on-disk format
zero-pads and strips trailing zeros on read). -/
def validString (s : List Nat) : Bool :=
  decide (s.length ≤ StringLength) && (s.getLast? ≠ some 0)

/-- A field value inhabits a field type: INT values are within the Go
`int64` range, STRING values are valid strings. -/
def fieldMatches : DBValue → FieldType → Bool
  | .IntField v, f => f.Ftype = IntType && decide (-(2 ^ 63) ≤ v) && decide (v < 2 ^ 63)
  | .StringField s, f => f.Ftype = StringType && validString s

/-- A tuple inhabits a descriptor: same descriptor and field-wise typed
values. -/
def tupleMatches (t : Tuple) (d : TupleDesc) : Bool :=
  t.Desc = d && t.Fields.length = d.Fields.length &&
    (t.Fields.zip d.Fields).all fun p => fieldMatches p.1 p.2

/-! ### Heap page (`heap_page.go`) -/

/-- `heapPage` from `heap_page.go`.  The backpointer to the owning
`HeapFile` is dropped: it only routes `getFile`/`flushPage` calls and plays
no part in the operations modelled here.  Slot `i` is `tuples[i]`, `none`
for an empty slot. -/
structure heapPage where
  Dirty : Bool
  pageNumber : Nat
  numSlots : Nat
  numUsedSlots : Nat
  desc : TupleDesc
  tuples : List (Option Tuple)
deriving DecidableEq, Repr

instance : Inhabited heapPage :=
  ⟨{ Dirty := false, pageNumber := 0, numSlots := 0, numUsedSlots := 0,
     desc := { Fields := [] }, tuples := [] }⟩

/-- `newHeapPage` from `heap_page.go`.  Fails (`none`) when the per-tuple
size is zero: the Go code would then divide `int32(PageSize-8)` by zero and
panic.  (The Go error branch for an unknown field type is unreachable in
the two-constructor `DBType` model.) -/
def newHeapPage (desc : TupleDesc) (pageNo : Nat) : Option heapPage :=
  let perTupleSize := tupleSizeOf desc
  if perTupleSize = 0 then none
  else
    let n := (PageSize - 8) / perTupleSize
    some { Dirty := false, pageNumber := pageNo, numSlots := n,
           numUsedSlots := 0, desc := desc, tuples := List.replicate n none }

/-- The slot-scan shared by `heapPage.insertTuple` and
`columnStorePage.insertTuple`: find the first `nil` slot, store the given
entry there, and report its index; fail when no slot is free. -/
def setFirstFree (entry : Option Tuple) :
    List (Option Tuple) → Option (List (Option Tuple) × Nat)
  | [] => none
  | none :: rest => some (entry :: rest, 0)
  | some t :: rest =>
    (setFirstFree entry rest).map fun p => (some t :: p.1, p.2 + 1)

/-- `heapPage.insertTuple` from `heap_page.go`: first free slot receives a
copy of the tuple re-stamped with the page descriptor and the fresh record
id `(pageNumber, slot)`; the page becomes dirty.  Fails when no slot is
free. -/
def heapPage.insertTuple (h : heapPage) (t : Tuple) :
    Option (heapPage × RecordID) :=
  (setFirstFree none h.tuples).bind fun p =>
    let rid : RecordID := (h.pageNumber, p.2)
    let stored : Tuple := { Desc := h.desc, Fields := t.Fields, Rid := some rid }
    some ({ h with numUsedSlots := h.numUsedSlots + 1,
                   tuples := p.1.set p.2 (some stored), Dirty := true }, rid)

/-- `heapPage.deleteTuple` from `heap_page.go`.  The Go version parses the
slot number back out of the record-id string and ignores the page part;
malformed-string branches have no counterpart for the structured
`RecordID`.  Fails on an out-of-range or empty slot. -/
def heapPage.deleteTuple (h : heapPage) (rid : RecordID) : Option heapPage :=
  let slot := rid.2
  if slot < h.tuples.length ∧ h.tuples.getD slot none ≠ none then
    some { h with tuples := h.tuples.set slot none,
                  numUsedSlots := h.numUsedSlots - 1, Dirty := true }
  else none

/-- The used tuples of a heap page, in slot order. -/
def heapPage.stored (h : heapPage) : List Tuple :=
  h.tuples.filterMap id

/-- `heapPage.toBuffer` from `heap_page.go`: the two 32-bit little-endian
header words, the used tuples in slot order, then `padBuffer` fills with
zeros up to `PageSize` (leaving the buffer alone if it is already that
long). -/
def heapPage.toBuffer (h : heapPage) : List Nat :=
  let body := natToLE 4 h.numSlots ++ natToLE 4 h.numUsedSlots ++
    (h.stored.map Tuple.writeTo).flatten
  body ++ List.replicate (PageSize - body.length) 0

/-- The tuple-reading loop of `heapPage.initFromBuffer`: read `n` tuples,
stamping record id `(pageNo, i)` on the i-th. -/
def readTuplesIdx (d : TupleDesc) (pageNo : Nat) :
    Nat → Nat → List Nat → Option (List Tuple)
  | _, 0, _ => some []
  | i, n + 1, buf =>
    (readTupleFrom buf d).bind fun p =>
      (readTuplesIdx d pageNo (i + 1) n p.2).map fun ts =>
        { p.1 with Rid := some (pageNo, i) } :: ts

/-- `heapPage.initFromBuffer` from `heap_page.go`: read the two header
words, then `numUsedSlots` tuples into slots `0 .. numUsedSlots-1`, the
rest empty.  Fails when the buffer runs short (the Go loop breaks and
returns the read error) and when `numUsedSlots > numSlots` (the Go slot
assignment would index out of range and panic). -/
def heapPage.initFromBuffer (desc : TupleDesc) (pageNo : Nat)
    (buf : List Nat) : Option heapPage :=
  (readU32 buf).bind fun p =>
    (readU32 p.2).bind fun q =>
      let ns := p.1
      let nu := q.1
      if nu ≤ ns then
        (readTuplesIdx desc pageNo 0 nu q.2).map fun ts =>
          { Dirty := false, pageNumber := pageNo, numSlots := ns,
            numUsedSlots := nu, desc := desc,
            tuples := ts.map some ++ List.replicate (ns - nu) none }
      else none

/-- The invariant `heapPage` operations maintain: the slot array has
`numSlots` entries of which exactly `numUsedSlots` are used, every stored
tuple carries the page descriptor with well-typed values, the slot count is
the one `newHeapPage` computes, and tuples are at least one byte wide. -/
def heapPage.wf (h : heapPage) : Prop :=
  h.tuples.length = h.numSlots ∧
  h.stored.length = h.numUsedSlots ∧
  (∀ t ∈ h.stored, tupleMatches t h.desc) ∧
  h.numSlots = (PageSize - 8) / tupleSizeOf h.desc ∧
  0 < tupleSizeOf h.desc

instance (h : heapPage) : Decidable h.wf := by
  unfold heapPage.wf
  exact inferInstance

/-! ### Column page (`column_store_page.go`) -/

/-- `columnStorePage` from `column_store_page.go`.  As with `heapPage`, the
backpointer to the owning `ColumnFile` is dropped.  `desc` is the one-field
projection of the parent descriptor. -/
structure columnStorePage where
  Dirty : Bool
  pageNumber : Nat
  colNumber : Nat
  numSlots : Nat
  numUsedSlots : Nat
  desc : TupleDesc
  tuples : List (Option Tuple)
deriving DecidableEq, Repr

instance : Inhabited columnStorePage :=
  ⟨{ Dirty := false, pageNumber := 0, colNumber := 0, numSlots := 0,
     numUsedSlots := 0, desc := { Fields := [] }, tuples := [] }⟩

/-- `newColumnPage` from `column_store_page.go`.  Fails when `colNumber` is
out of range for the descriptor (the Go index expression would panic). -/
def newColumnPage (desc : TupleDesc) (colNumber pageNumber : Nat) :
    Option columnStorePage :=
  (desc.Fields.get? colNumber).map fun field =>
    let tupleSize := fieldSize field.Ftype
    let n := (PageSize - 8) / tupleSize
    { Dirty := false, pageNumber := pageNumber, colNumber := colNumber,
      numSlots := n, numUsedSlots := 0, desc := { Fields := [field] },
      tuples := List.replicate n none }

/-- The field-resolution scan of `Tuple.project` from `tuple.go`: first
look for a name-and-qualifier match, then fall back to a name-only
match. -/
def findProjIdx (fs : List FieldType) (field : FieldType) : Option Nat :=
  match fs.findIdx? fun df => df.Fname = field.Fname ∧
      df.TableQualifier = field.TableQualifier with
  | some i => some i
  | none => fs.findIdx? fun df => df.Fname = field.Fname

/-- The field-collection loop of `Tuple.project`. -/
def projGo (t : Tuple) : List FieldType → Option (List FieldType × List DBValue)
  | [] => some ([], [])
  | f :: fs =>
    (findProjIdx t.Desc.Fields f).bind fun i =>
      (t.Fields.get? i).bind fun v =>
        (t.Desc.Fields.get? i).bind fun df =>
          (projGo t fs).map fun p => (df :: p.1, v :: p.2)

/-- `Tuple.project` from `tuple.go`: pick out the named fields, preferring
qualifier matches; fails when some requested field is absent. -/
def Tuple.project (t : Tuple) (fields : List FieldType) : Option Tuple :=
  (projGo t fields).map fun p =>
    { Desc := { Fields := p.1 }, Fields := p.2, Rid := none }

/-- `columnStorePage.insertTuple` from `column_store_page.go`: reject a
full page, project the tuple onto the page's single column (the Go code
drops the projection error and would store a `nil` tuple on failure — the
slot receives the raw projection result), store it in the first free slot,
and return the slot index. -/
def columnStorePage.insertTuple (c : columnStorePage) (t : Tuple) :
    Option (columnStorePage × Nat) :=
  if c.numUsedSlots ≥ c.numSlots then none
  else
    let toInsert := t.project c.desc.Fields
    (setFirstFree toInsert c.tuples).map fun p =>
      ({ c with tuples := p.1, numUsedSlots := c.numUsedSlots + 1,
                Dirty := true }, p.2)

/-- `columnStorePage.deleteTuple` from `column_store_page.go`. -/
def columnStorePage.deleteTuple (c : columnStorePage) (slot : Nat) :
    Option columnStorePage :=
  if slot < c.numSlots ∧ c.tuples.getD slot none ≠ none then
    some { c with tuples := c.tuples.set slot none,
                  numUsedSlots := c.numUsedSlots - 1, Dirty := true }
  else none

/-- The used tuples of a column page, in slot order. -/
def columnStorePage.stored (c : columnStorePage) : List Tuple :=
  c.tuples.filterMap id

/-- `columnStorePage.toBuffer` from `column_store_page.go`: the two 32-bit
little-endian header words followed by the used tuples in slot order.
Unlike `heapPage.toBuffer` there is no padding step. -/
def columnStorePage.toBuffer (c : columnStorePage) : List Nat :=
  natToLE 4 c.numSlots ++ natToLE 4 c.numUsedSlots ++
    (c.stored.map Tuple.writeTo).flatten

/-- The read-and-insert loop of `columnStorePage.initFromBuffer`: read
`n` tuples of the page descriptor off the buffer, inserting each with
`insertTuple`; any read or insert failure aborts. -/
def colReadInsert : columnStorePage → Nat → List Nat → Option columnStorePage
  | c, 0, _ => some c
  | c, n + 1, buf =>
    (readTupleFrom buf c.desc).bind fun p =>
      (c.insertTuple p.1).bind fun q => colReadInsert q.1 n p.2

/-- `columnStorePage.initFromBuffer` from `column_store_page.go`: read the
slot count into the page, reset the slot array, then read and insert the
used tuples one by one.  (`numUsedSlots` keeps its prior value and is
advanced by the inserts; on the fresh pages the source applies this to it
starts at zero.) -/
def columnStorePage.initFromBuffer (c : columnStorePage) (buf : List Nat) :
    Option columnStorePage :=
  (readU32 buf).bind fun p =>
    (readU32 p.2).bind fun q =>
      colReadInsert
        { c with numSlots := p.1, tuples := List.replicate p.1 none }
        q.1 q.2

/-- The invariant `columnStorePage` operations maintain on pages built by
the engine: a single-column descriptor, a consistent slot array, stored
tuples stamped with the page descriptor and well-typed, and the slot count
`newColumnPage` computes. -/
def columnStorePage.wf (c : columnStorePage) : Prop :=
  c.tuples.length = c.numSlots ∧
  c.stored.length = c.numUsedSlots ∧
  (∀ t ∈ c.stored, tupleMatches t c.desc) ∧
  c.desc.Fields.length = 1 ∧
  c.numSlots = (PageSize - 8) / tupleSizeOf c.desc

instance (c : columnStorePage) : Decidable c.wf := by
  unfold columnStorePage.wf
  exact inferInstance

/-! ### Round-trip lemmas for the byte encodings -/

theorem natToLE_length (w n : Nat) : (natToLE w n).length = w := by
  induction w generalizing n with
  | zero => rfl
  | succ w ih => simp [natToLE, ih]

theorem natFromLE_natToLE (w n : Nat) :
    natFromLE (natToLE w n) = n % 256 ^ w := by
  induction w generalizing n with
  | zero => simp [natToLE, natFromLE, Nat.mod_one]
  | succ w ih =>
    rw [natToLE, natFromLE, ih, pow_succ, mul_comm (256 ^ w) 256, Nat.mod_mul]

theorem readBytes_exact (l rest : List Nat) :
    readBytes l.length (l ++ rest) = some (l, rest) := by
  rw [readBytes, if_pos (by simp)]
  simp

theorem readU32_natToLE (n : Nat) (rest : List Nat) (hn : n < 2 ^ 32) :
    readU32 (natToLE 4 n ++ rest) = some (n, rest) := by
  have h := readBytes_exact (natToLE 4 n) rest
  rw [natToLE_length] at h
  rw [readU32, h]
  simp only [Option.map_some']
  rw [natFromLE_natToLE, Nat.mod_eq_of_lt (by
    calc n < 2 ^ 32 := hn
      _ = 256 ^ 4 := by norm_num)]

theorem int64ToLE_length (v : Int) : (int64ToLE v).length = 8 :=
  natToLE_length 8 _

theorem int64FromLE_int64ToLE (v : Int) (h0 : -(2 ^ 63) ≤ v)
    (h1 : v < 2 ^ 63) : int64FromLE (int64ToLE v) = v := by
  have hlt : v % 2 ^ 64 < 2 ^ 64 := Int.emod_lt_of_pos v (by norm_num)
  have hge : 0 ≤ v % 2 ^ 64 := Int.emod_nonneg v (by norm_num)
  have hmod : natFromLE (natToLE 8 (v % 2 ^ 64).toNat) = (v % 2 ^ 64).toNat := by
    rw [natFromLE_natToLE]
    refine Nat.mod_eq_of_lt ?_
    have h84 : (256 : Nat) ^ 8 = 2 ^ 64 := by norm_num
    rw [h84]
    omega
  rw [int64FromLE, int64ToLE, hmod]
  rcases le_or_lt 0 v with hv | hv
  · have hv64 : v % 2 ^ 64 = v := by omega
    rw [hv64, if_pos (by omega)]
    omega
  · have hv64 : v % 2 ^ 64 = v + 2 ^ 64 := by omega
    rw [hv64, if_neg (by omega)]
    omega

theorem readIntField_int64ToLE (v : Int) (rest : List Nat)
    (h0 : -(2 ^ 63) ≤ v) (h1 : v < 2 ^ 63) :
    readIntField (int64ToLE v ++ rest) = some (v, rest) := by
  rw [readIntField, show (8 : Nat) = (int64ToLE v).length from
    (int64ToLE_length v).symm, readBytes_exact]
  simp [int64FromLE_int64ToLE v h0 h1]

theorem writeStringField_length (s : List Nat) :
    (writeStringField s).length = StringLength := by
  rw [writeStringField]
  have : (s.take StringLength).length ≤ StringLength := by
    simp [List.length_take]
  simp only [List.length_append, List.length_replicate]
  omega

theorem dropWhile_zeros_append (k : Nat) (l : List Nat) :
    (List.replicate k 0 ++ l).dropWhile (fun b => b = 0) =
      l.dropWhile (fun b => b = 0) := by
  induction k with
  | zero => rfl
  | succ k ih => simp [List.replicate_succ, List.dropWhile, ih]

theorem trimTrailingZeros_pad (s : List Nat) (k : Nat)
    (h : s.getLast? ≠ some 0) :
    trimTrailingZeros (s ++ List.replicate k 0) = s := by
  rw [trimTrailingZeros, List.reverse_append, List.reverse_replicate,
    dropWhile_zeros_append]
  cases hs : s.reverse with
  | nil =>
    simp only [List.dropWhile_nil, List.reverse_nil]
    exact (List.reverse_eq_nil_iff.mp hs).symm
  | cons b bs =>
    have hb : b ≠ 0 := by
      intro hb0
      apply h
      rw [← List.head?_reverse, hs, hb0]
      rfl
    rw [List.dropWhile_cons_of_neg (by simpa using hb), ← hs,
      List.reverse_reverse]

theorem validString_spec (s : List Nat) (h : validString s = true) :
    s.length ≤ StringLength ∧ s.getLast? ≠ some 0 := by
  unfold validString at h
  simp only [Bool.and_eq_true, decide_eq_true_eq] at h
  exact h

theorem fieldMatches_int (v : Int) (f : FieldType)
    (h : fieldMatches (DBValue.IntField v) f = true) :
    f.Ftype = IntType ∧ -(2 ^ 63) ≤ v ∧ v < 2 ^ 63 := by
  unfold fieldMatches at h
  simp only [Bool.and_eq_true, decide_eq_true_eq] at h
  exact ⟨h.1.1, h.1.2, h.2⟩

theorem fieldMatches_string (s : List Nat) (f : FieldType)
    (h : fieldMatches (DBValue.StringField s) f = true) :
    f.Ftype = StringType ∧ validString s = true := by
  unfold fieldMatches at h
  simp only [Bool.and_eq_true, decide_eq_true_eq] at h
  exact h

theorem tupleMatches_spec (t : Tuple) (d : TupleDesc)
    (h : tupleMatches t d = true) :
    t.Desc = d ∧ t.Fields.length = d.Fields.length ∧
      ∀ p ∈ t.Fields.zip d.Fields, fieldMatches p.1 p.2 = true := by
  unfold tupleMatches at h
  simp only [Bool.and_eq_true, decide_eq_true_eq, List.all_eq_true] at h
  exact ⟨h.1.1, h.1.2, h.2⟩

theorem readStringField_writeStringField (s : List Nat) (rest : List Nat)
    (h : validString s = true) :
    readStringField (writeStringField s ++ rest) = some (s, rest) := by
  obtain ⟨hlen, hlast⟩ := validString_spec s h
  have htake : s.take StringLength = s := List.take_of_length_le hlen
  have hb := readBytes_exact (writeStringField s) rest
  rw [writeStringField_length] at hb
  rw [readStringField, hb]
  simp only [Option.map_some']
  rw [writeStringField, htake, trimTrailingZeros_pad s _ hlast]

theorem writeField_length (v : DBValue) (f : FieldType)
    (h : fieldMatches v f = true) :
    (writeField v).length = fieldSize f.Ftype := by
  cases v with
  | IntField n =>
    rw [(fieldMatches_int n f h).1]
    exact int64ToLE_length n
  | StringField s =>
    rw [(fieldMatches_string s f h).1]
    exact writeStringField_length s

theorem readFields_roundtrip (vs : List DBValue) (fs : List FieldType)
    (rest : List Nat) (hlen : vs.length = fs.length)
    (hm : ∀ p ∈ vs.zip fs, fieldMatches p.1 p.2 = true) :
    readFields fs ((vs.map writeField).flatten ++ rest) = some (vs, rest) := by
  induction vs generalizing fs rest with
  | nil =>
    cases fs with
    | nil => simp [readFields]
    | cons f fs => simp at hlen
  | cons v vs ih =>
    cases fs with
    | nil => simp at hlen
    | cons f fs =>
      have hv : fieldMatches v f = true := hm (v, f) (by simp)
      have hrest : ∀ p ∈ vs.zip fs, fieldMatches p.1 p.2 = true := by
        intro p hp
        exact hm p (by simp [hp])
      have hlen' : vs.length = fs.length := by simpa using hlen
      have htail := ih fs rest hlen' hrest
      cases v with
      | IntField n =>
        obtain ⟨hty', hlo, hhi⟩ := fieldMatches_int n f hv
        simp only [List.map_cons, List.flatten_cons, List.append_assoc]
        rw [readFields, hty', writeField,
          readIntField_int64ToLE n _ hlo hhi]
        simp [htail]
      | StringField s =>
        obtain ⟨hty', hvs⟩ := fieldMatches_string s f hv
        simp only [List.map_cons, List.flatten_cons, List.append_assoc]
        rw [readFields, hty', writeField,
          readStringField_writeStringField s _ hvs]
        simp [htail]

theorem readTupleFrom_writeTo (t : Tuple) (d : TupleDesc) (rest : List Nat)
    (h : tupleMatches t d = true) :
    readTupleFrom (t.writeTo ++ rest) d =
      some ({ Desc := d, Fields := t.Fields, Rid := none }, rest) := by
  obtain ⟨_, hlen', hm⟩ := tupleMatches_spec t d h
  rw [readTupleFrom, Tuple.writeTo, readFields_roundtrip _ _ _ hlen' hm]
  rfl

theorem flatten_writeField_length (vs : List DBValue) (fs : List FieldType)
    (hlen : vs.length = fs.length)
    (hm : ∀ p ∈ vs.zip fs, fieldMatches p.1 p.2 = true) :
    ((vs.map writeField).flatten).length =
      (fs.map fun f => fieldSize f.Ftype).sum := by
  induction vs generalizing fs with
  | nil =>
    cases fs with
    | nil => simp
    | cons f fs => simp at hlen
  | cons v vs ih =>
    cases fs with
    | nil => simp at hlen
    | cons f fs =>
      have hv : fieldMatches v f = true := hm (v, f) (by simp)
      have hrest : ∀ p ∈ vs.zip fs, fieldMatches p.1 p.2 = true := by
        intro p hp
        exact hm p (by simp [hp])
      simp only [List.map_cons, List.flatten_cons, List.length_append,
        List.sum_cons]
      rw [writeField_length v f hv, ih fs (by simpa using hlen) hrest]

theorem writeTo_length (t : Tuple) (d : TupleDesc)
    (h : tupleMatches t d = true) :
    t.writeTo.length = tupleSizeOf d := by
  obtain ⟨_, hlen', hm⟩ := tupleMatches_spec t d h
  rw [Tuple.writeTo, tupleSizeOf]
  exact flatten_writeField_length _ _ hlen' hm

theorem payload_length (ts : List Tuple) (d : TupleDesc)
    (hm : ∀ t ∈ ts, tupleMatches t d = true) :
    ((ts.map Tuple.writeTo).flatten).length = ts.length * tupleSizeOf d := by
  induction ts with
  | nil => simp
  | cons t ts ih =>
    simp only [List.map_cons, List.flatten_cons, List.length_append,
      List.length_cons]
    rw [writeTo_length t d (hm t (by simp)), ih (fun u hu => hm u (by simp [hu])),
      Nat.succ_mul, Nat.add_comm]

theorem stored_le_slots (h : heapPage) (hw : h.wf) :
    h.numUsedSlots ≤ h.numSlots := by
  obtain ⟨h1, h2, _, _, _⟩ := hw
  calc h.numUsedSlots = h.stored.length := h2.symm
    _ ≤ h.tuples.length := List.length_filterMap_le _ _
    _ = h.numSlots := h1

theorem heapPage_body_bound (h : heapPage) (hw : h.wf) :
    8 + h.numUsedSlots * tupleSizeOf h.desc ≤ PageSize := by
  have hle : h.numUsedSlots ≤ h.numSlots := stored_le_slots h hw
  obtain ⟨_, _, _, h4, h5⟩ := hw
  have hmul : h.numSlots * tupleSizeOf h.desc ≤ PageSize - 8 := by
    rw [h4]
    exact Nat.div_mul_le_self _ _
  have : h.numUsedSlots * tupleSizeOf h.desc ≤ PageSize - 8 :=
    le_trans (Nat.mul_le_mul_right _ hle) hmul
  have hps : 8 ≤ PageSize := by norm_num [PageSize]
  omega

/-! ### Claim C1: page serialization produces exactly `PAGE_SIZE` bytes.

True for heap pages; false for column pages, whose `toBuffer` has no
padding step. -/

/-- The field type `age INT` used by the concrete witness inputs. -/
def ageField : FieldType :=
  { Fname := "age", TableQualifier := "", Ftype := IntType }

/-- The one-field descriptor `[age INT]` used by the concrete witness
inputs. -/
def ageDesc : TupleDesc := { Fields := [ageField] }

/-- A fresh single-INT-column page: the concrete input on which the claim
fails. -/
def c1ColumnPage : columnStorePage :=
  (newColumnPage ageDesc 0 0).getD default

/-- C1, counterexample: `c1ColumnPage` satisfies the claim's precondition
`0 ≤ numUsedSlots ≤ numSlots`, yet `columnStorePage.toBuffer` yields an
8-byte buffer, not `PAGE_SIZE` bytes: the column-page serializer never
pads. -/
theorem C1_column_toBuffer_not_PageSize :
    c1ColumnPage.numUsedSlots ≤ c1ColumnPage.numSlots ∧
      c1ColumnPage.wf ∧
      (columnStorePage.toBuffer c1ColumnPage).length = 8 ∧
      (columnStorePage.toBuffer c1ColumnPage).length ≠ PageSize := by
  refine ⟨by decide, by decide, by decide, by decide⟩

/-- C1, amended: a well-formed heap page serializes to exactly `PAGE_SIZE`
bytes — the two 32-bit little-endian header words, the used tuple payloads
in slot order, then zero padding — but a well-formed column page serializes
to exactly `8 + numUsedSlots · tupleSize` bytes with no padding. -/
theorem C1_toBuffer_layout (h : heapPage) (c : columnStorePage)
    (hw : h.wf) (hc : c.wf) :
    h.toBuffer.length = PageSize ∧
    h.toBuffer = natToLE 4 h.numSlots ++ natToLE 4 h.numUsedSlots ++
      (h.stored.map Tuple.writeTo).flatten ++
      List.replicate (PageSize - (8 + h.numUsedSlots * tupleSizeOf h.desc)) 0 ∧
    c.toBuffer.length = 8 + c.numUsedSlots * tupleSizeOf c.desc := by
  have hbound := heapPage_body_bound h hw
  obtain ⟨_, hw2, hw3, _, _⟩ := hw
  have hpay : ((h.stored.map Tuple.writeTo).flatten).length =
      h.numUsedSlots * tupleSizeOf h.desc := by
    rw [payload_length h.stored h.desc hw3, hw2]
  refine ⟨?_, ?_, ?_⟩
  · rw [heapPage.toBuffer]
    simp only [List.length_append, List.length_replicate, natToLE_length,
      hpay]
    omega
  · rw [heapPage.toBuffer]
    simp only [List.length_append, natToLE_length, hpay, List.append_assoc]
    have h8 : 4 + (4 + h.numUsedSlots * tupleSizeOf h.desc) =
        8 + h.numUsedSlots * tupleSizeOf h.desc := by omega
    rw [h8]
  · obtain ⟨_, hc2, hc3, _, _⟩ := hc
    have hcp : ((c.stored.map Tuple.writeTo).flatten).length =
        c.numUsedSlots * tupleSizeOf c.desc := by
      rw [payload_length c.stored c.desc hc3, hc2]
    rw [columnStorePage.toBuffer]
    simp only [List.length_append, natToLE_length, hcp]

/-- The tuple `(age = 20)` used by the concrete witness inputs. -/
def ageTuple : Tuple :=
  { Desc := ageDesc, Fields := [DBValue.IntField 20], Rid := none }

/-- A heap page holding one tuple, used to instantiate `C1_toBuffer_layout`. -/
def c1HeapPage : heapPage :=
  (((newHeapPage ageDesc 0).getD default).insertTuple ageTuple).elim
    default Prod.fst

/-! ### Claim C2: serialize-then-deserialize preserves the tuple multiset -/

theorem filterMap_id_some_replicate (l : List Tuple) (k : Nat) :
    ((l.map some ++ List.replicate k none).filterMap id) = l := by
  rw [List.filterMap_append]
  have h1 : (l.map some).filterMap id = l := by
    induction l with
    | nil => rfl
    | cons t ts ih => simp [List.filterMap_cons, ih]
  have h2 : (List.replicate k none).filterMap (id : Option Tuple → Option Tuple)
      = [] := by
    induction k with
    | zero => rfl
    | succ k ih => simp [List.replicate_succ, List.filterMap_cons, ih]
  rw [h1, h2, List.append_nil]

theorem readTuplesIdx_concat (d : TupleDesc) (pageNo : Nat) (ts : List Tuple)
    (hm : ∀ t ∈ ts, tupleMatches t d = true) (i : Nat) (rest : List Nat) :
    ∃ rs, readTuplesIdx d pageNo i ts.length
        ((ts.map Tuple.writeTo).flatten ++ rest) = some rs ∧
      rs.map Tuple.Fields = ts.map Tuple.Fields := by
  induction ts generalizing i with
  | nil => exact ⟨[], rfl, rfl⟩
  | cons t ts ih =>
    obtain ⟨rs, hrs, hfs⟩ := ih (fun u hu => hm u (by simp [hu])) (i + 1)
    refine ⟨{ Desc := d, Fields := t.Fields, Rid := some (pageNo, i) } :: rs,
      ?_, ?_⟩
    · have hbuf : (((t :: ts).map Tuple.writeTo).flatten ++ rest) =
          t.writeTo ++ ((ts.map Tuple.writeTo).flatten ++ rest) := by
        simp
      rw [List.length_cons, hbuf, readTuplesIdx,
        readTupleFrom_writeTo t d _ (hm t (by simp)), Option.some_bind, hrs,
        Option.map_some']
    · simp [hfs]

theorem heapPage_roundtrip (h : heapPage) (hw : h.wf) :
    ∃ p, heapPage.initFromBuffer h.desc h.pageNumber h.toBuffer = some p ∧
      p.stored.map Tuple.Fields = h.stored.map Tuple.Fields := by
  have hle := stored_le_slots h hw
  obtain ⟨hw1, hw2, hw3, hw4, hw5⟩ := hw
  have hns : h.numSlots < 2 ^ 32 := by
    have hd : h.numSlots ≤ PageSize - 8 := by
      rw [hw4]
      exact Nat.div_le_self _ _
    have hps : PageSize - 8 = 4088 := by norm_num [PageSize]
    omega
  have hnu : h.numUsedSlots < 2 ^ 32 := lt_of_le_of_lt hle hns
  obtain ⟨rs, hrs, hfs⟩ := readTuplesIdx_concat h.desc h.pageNumber h.stored
    hw3 0 (List.replicate (PageSize - (natToLE 4 h.numSlots ++
      natToLE 4 h.numUsedSlots ++
      (h.stored.map Tuple.writeTo).flatten).length) 0)
  have hbuf : h.toBuffer = natToLE 4 h.numSlots ++ (natToLE 4 h.numUsedSlots
      ++ ((h.stored.map Tuple.writeTo).flatten ++
        List.replicate (PageSize - (natToLE 4 h.numSlots ++
          natToLE 4 h.numUsedSlots ++
          (h.stored.map Tuple.writeTo).flatten).length) 0)) := by
    rw [heapPage.toBuffer]
    simp [List.append_assoc]
  refine ⟨{ Dirty := false,
            pageNumber := h.pageNumber,
            numSlots := h.numSlots,
            numUsedSlots := h.numUsedSlots,
            desc := h.desc,
            tuples := rs.map some ++
              List.replicate (h.numSlots - h.numUsedSlots) none }, ?_, ?_⟩
  · rw [hw2] at hrs
    simp only [heapPage.initFromBuffer, hbuf, readU32_natToLE _ _ hns,
      readU32_natToLE _ _ hnu, Option.some_bind, if_pos hle, hrs,
      Option.map_some']
  · show ((rs.map some ++
      List.replicate (h.numSlots - h.numUsedSlots) none).filterMap id).map
        Tuple.Fields = h.stored.map Tuple.Fields
    rw [filterMap_id_some_replicate, hfs]

theorem fieldSize_pos (ty : DBType) : 0 < fieldSize ty := by
  cases ty <;> norm_num [fieldSize, StringLength]

theorem project_single (t : Tuple) (f : FieldType) (v : DBValue)
    (hd : t.Desc = { Fields := [f] }) (hv : t.Fields = [v]) :
    t.project [f] =
      some { Desc := { Fields := [f] }, Fields := [v], Rid := none } := by
  have hidx : findProjIdx t.Desc.Fields f = some 0 := by
    rw [hd, findProjIdx]
    simp [List.findIdx?]
  rw [Tuple.project, projGo, hidx, Option.some_bind, hv, hd]
  rfl

theorem setFirstFree_filled (accl : List Tuple) (entry : Option Tuple)
    (rest : List (Option Tuple)) :
    setFirstFree entry (accl.map some ++ none :: rest) =
      some (accl.map some ++ entry :: rest, accl.length) := by
  induction accl with
  | nil => rfl
  | cons t ts ih => simp [setFirstFree, ih]

theorem colReadInsert_fill (f : FieldType) (ts : List Tuple) :
    ∀ (q : columnStorePage) (accl : List Tuple) (m : Nat) (rest : List Nat),
    q.desc = { Fields := [f] } →
    (∀ t ∈ ts, tupleMatches t q.desc = true) →
    q.tuples = accl.map some ++ List.replicate m none →
    q.numUsedSlots = accl.length →
    q.numSlots = accl.length + m →
    ts.length ≤ m →
    ∃ q', colReadInsert q ts.length ((ts.map Tuple.writeTo).flatten ++ rest)
        = some q' ∧
      q'.tuples = ((accl ++ ts.map fun t =>
          ({ Desc := q.desc, Fields := t.Fields, Rid := none } : Tuple)).map
            some) ++
        List.replicate (m - ts.length) none ∧
      q'.desc = q.desc := by
  induction ts with
  | nil =>
    intro q accl m rest hd hm ht hu hs hl
    exact ⟨q, rfl, by simp [ht], rfl⟩
  | cons t ts ih =>
    intro q accl m rest hd hm ht hu hs hl
    obtain ⟨m', rfl⟩ : ∃ m', m = m' + 1 := ⟨m - 1, by simp at hl; omega⟩
    have hmt : tupleMatches t q.desc = true := hm t (by simp)
    obtain ⟨hdesc, hflen, _⟩ := tupleMatches_spec t q.desc hmt
    have hfone : t.Fields.length = 1 := by
      rw [hflen, hd]
      rfl
    obtain ⟨v, hv⟩ := List.length_eq_one.mp hfone
    have hread : readTupleFrom (((t :: ts).map Tuple.writeTo).flatten ++ rest)
        q.desc = some ({ Desc := q.desc, Fields := t.Fields, Rid := none },
          (ts.map Tuple.writeTo).flatten ++ rest) := by
      have hbb : (((t :: ts).map Tuple.writeTo).flatten ++ rest) =
          t.writeTo ++ ((ts.map Tuple.writeTo).flatten ++ rest) := by
        simp
      rw [hbb, readTupleFrom_writeTo t q.desc _ hmt]
    have hproj : Tuple.project
        { Desc := q.desc, Fields := t.Fields, Rid := none } q.desc.Fields =
        some { Desc := q.desc, Fields := t.Fields, Rid := none } := by
      rw [hd, hv]
      exact project_single _ f v rfl rfl
    have hins : columnStorePage.insertTuple q
        { Desc := q.desc, Fields := t.Fields, Rid := none } =
        some ({ q with
          tuples := accl.map some ++
            some { Desc := q.desc, Fields := t.Fields, Rid := none } ::
              List.replicate m' none,
          numUsedSlots := q.numUsedSlots + 1,
          Dirty := true }, accl.length) := by
      rw [columnStorePage.insertTuple, if_neg (by omega)]
      simp only [hproj, ht, List.replicate_succ, setFirstFree_filled,
        Option.map_some']
    have hrec := ih { q with
        tuples := accl.map some ++
          some { Desc := q.desc, Fields := t.Fields, Rid := none } ::
            List.replicate m' none,
        numUsedSlots := q.numUsedSlots + 1,
        Dirty := true }
      (accl ++ [{ Desc := q.desc, Fields := t.Fields, Rid := none }]) m' rest
      (by simpa using hd)
      (by intro u hu'; simpa using hm u (by simp [hu']))
      (by simp)
      (by simp [hu])
      (by simp; omega)
      (by simp at hl; omega)
    obtain ⟨q', hq', htup, hdq⟩ := hrec
    refine ⟨q', ?_, ?_, by simpa using hdq⟩
    · rw [List.length_cons, colReadInsert, hread, Option.some_bind, hins,
        Option.some_bind, hq']
    · rw [htup]
      simp

theorem columnPage_roundtrip (c c0 : columnStorePage) (hc : c.wf)
    (hd : c0.desc = c.desc) (hu : c0.numUsedSlots = 0) :
    ∃ p, columnStorePage.initFromBuffer c0 c.toBuffer = some p ∧
      p.stored.map Tuple.Fields = c.stored.map Tuple.Fields := by
  obtain ⟨hc1, hc2, hc3, hc4, hc5⟩ := hc
  obtain ⟨f, hf⟩ := List.length_eq_one.mp hc4
  have hdesc : c.desc = { Fields := [f] } := by
    cases hdd : c.desc with
    | mk fs => rw [hdd] at hf; simp at hf; rw [hf]
  have hsz : 0 < tupleSizeOf c.desc := by
    rw [hdesc, tupleSizeOf]
    simpa using fieldSize_pos f.Ftype
  have hns : c.numSlots < 2 ^ 32 := by
    have hdle : c.numSlots ≤ PageSize - 8 := by
      rw [hc5]
      exact Nat.div_le_self _ _
    have hps : PageSize - 8 = 4088 := by norm_num [PageSize]
    omega
  have hle : c.numUsedSlots ≤ c.numSlots := by
    calc c.numUsedSlots = c.stored.length := hc2.symm
      _ ≤ c.tuples.length := List.length_filterMap_le _ _
      _ = c.numSlots := hc1
  have hnu : c.numUsedSlots < 2 ^ 32 := lt_of_le_of_lt hle hns
  have hfill := colReadInsert_fill f c.stored
    { c0 with numSlots := c.numSlots,
              tuples := List.replicate c.numSlots none }
    [] c.numSlots ([] : List Nat)
    (by simpa using hd.trans hdesc)
    (by
      intro u hu'
      show tupleMatches u c0.desc = true
      rw [hd]
      exact hc3 u hu')
    (by simp)
    (by simpa using hu)
    (by simp)
    (by rw [hc2]; exact hle)
  obtain ⟨q', hq', htup, hdq⟩ := hfill
  rw [List.append_nil] at hq'
  refine ⟨q', ?_, ?_⟩
  · rw [columnStorePage.initFromBuffer, columnStorePage.toBuffer,
      List.append_assoc, readU32_natToLE _ _ hns, Option.some_bind,
      readU32_natToLE _ _ hnu, Option.some_bind, ← hc2, hq']
  · rw [columnStorePage.stored, htup]
    simp only [List.nil_append]
    rw [filterMap_id_some_replicate]
    simp

/-- C2: serializing a well-formed page of either layout with `toBuffer` and
deserializing the buffer with `initFromBuffer` into a fresh page of the same
descriptor succeeds and preserves the multiset of stored tuples.  Stored
tuples on both sides carry the page descriptor, so tuple equality (the Go
`equals`, which ignores record ids) reduces to equality of the field-value
lists compared here; slot indices and record ids may change. -/
theorem C2_serialize_deserialize (h : heapPage) (c c0 : columnStorePage)
    (hw : h.wf) (hc : c.wf) (hd : c0.desc = c.desc)
    (hu : c0.numUsedSlots = 0) :
    (∃ p, heapPage.initFromBuffer h.desc h.pageNumber h.toBuffer = some p ∧
      (↑(p.stored.map Tuple.Fields) : Multiset (List DBValue)) =
        ↑(h.stored.map Tuple.Fields)) ∧
    ∃ p, columnStorePage.initFromBuffer c0 c.toBuffer = some p ∧
      (↑(p.stored.map Tuple.Fields) : Multiset (List DBValue)) =
        ↑(c.stored.map Tuple.Fields) := by
  obtain ⟨p1, e1, f1⟩ := heapPage_roundtrip h hw
  obtain ⟨p2, e2, f2⟩ := columnPage_roundtrip c c0 hc hd hu
  exact ⟨⟨p1, e1, by rw [f1]⟩, ⟨p2, e2, by rw [f2]⟩⟩

/-- A column page holding one projected tuple, the concrete serialization
input of the C2 witness. -/
def c2ColumnPage : columnStorePage :=
  (c1ColumnPage.insertTuple ageTuple).elim default Prod.fst

/-- Witness: `C2_serialize_deserialize` applied to a heap page and a column
page each holding one tuple, with `c1ColumnPage` as the fresh
deserialization target. -/
theorem C2_serialize_deserialize_witness :
    (∃ p, heapPage.initFromBuffer c1HeapPage.desc c1HeapPage.pageNumber
        c1HeapPage.toBuffer = some p ∧
      (↑(p.stored.map Tuple.Fields) : Multiset (List DBValue)) =
        ↑(c1HeapPage.stored.map Tuple.Fields)) ∧
    ∃ p, columnStorePage.initFromBuffer c1ColumnPage c2ColumnPage.toBuffer
        = some p ∧
      (↑(p.stored.map Tuple.Fields) : Multiset (List DBValue)) =
        ↑(c2ColumnPage.stored.map Tuple.Fields) :=
  C2_serialize_deserialize c1HeapPage c2ColumnPage c1ColumnPage
    (by decide) (by decide) (by decide) (by decide)

/-- Witness: `C1_toBuffer_layout` applied to the concrete pages. -/
theorem C1_toBuffer_layout_witness :
    c1HeapPage.toBuffer.length = PageSize ∧
    c1HeapPage.toBuffer = natToLE 4 c1HeapPage.numSlots ++
      natToLE 4 c1HeapPage.numUsedSlots ++
      (c1HeapPage.stored.map Tuple.writeTo).flatten ++
      List.replicate (PageSize -
        (8 + c1HeapPage.numUsedSlots * tupleSizeOf c1HeapPage.desc)) 0 ∧
    c1ColumnPage.toBuffer.length =
      8 + c1ColumnPage.numUsedSlots * tupleSizeOf c1ColumnPage.desc := by
  have h := C1_toBuffer_layout c1HeapPage c1ColumnPage (by decide) (by decide)
  exact ⟨h.1, h.2.1, h.2.2⟩

/-! ### Buffer pool (`buffer_pool.go`)

Transaction ids and page keys are opaque in Go (`TransactionID`, `any`);
both are modelled as `Nat`.  Go's hash maps are modelled as association
lists iterated in list order; Go iterates maps in an unspecified order, and
the properties proved below either do not depend on the order or are
evaluated on states where every order agrees.  Only the dirty bit of a
cached page is relevant to the pool-level claims. -/

abbrev TransactionID := Nat

abbrev PageKey := Nat

/-- `RWPerm` from `buffer_pool.go`. -/
inductive RWPerm where
  | ReadPerm
  | WritePerm
deriving DecidableEq, Repr

/-- A cached page as the pool sees it. -/
structure CachedPage where
  dirty : Bool
deriving DecidableEq, Repr

/-- Go `map[K]V` assignment `m[k] = v` on an association list. -/
def assocSet {β : Type} : List (Nat × β) → Nat → β → List (Nat × β)
  | [], k, v => [(k, v)]
  | e :: rest, k, v =>
    if e.1 = k then (k, v) :: rest else e :: assocSet rest k v

/-- Go `delete(m, k)` on an association list (Go map keys are unique, so
deleting the first occurrence is exact). -/
def assocErase {β : Type} : List (Nat × β) → Nat → List (Nat × β)
  | [], _ => []
  | e :: rest, k => if e.1 = k then rest else e :: assocErase rest k

/-- Go set insertion `s[x] = struct\x7b\x7d{}`. -/
def insertUniq (x : Nat) (l : List Nat) : List Nat :=
  if x ∈ l then l else l ++ [x]

/-- `BufferPool` from `buffer_pool.go` (the mutex is dropped: the embedding
treats every call as one atomic step). -/
structure BufferPool where
  Pages : List (PageKey × CachedPage)
  NumPages : Int
  transactionDependencies : List (TransactionID × List TransactionID)
  readPermissionLocks : List (TransactionID × List PageKey)
  writePermissionLocks : List (TransactionID × List PageKey)
  currentTransactions : List TransactionID
deriving DecidableEq, Repr

/-- The successor set `bp.transactionDependencies[tid]` of the wait-for
graph. -/
def succsOf (deps : List (TransactionID × List TransactionID))
    (t : TransactionID) : List TransactionID :=
  (List.lookup t deps).getD []

/-- The recursive `dfs` closure of `BufferPool.hasCycle` and its
`for next := range deps[tid]` loop, merged into one fuel-indexed function
(so that it is structurally recursive and evaluates by kernel reduction).
`Sum.inl tid` visits a node: mark it on the recursion stack `cur` and in
`vis`, scan its successors, then take it back off the stack.
`Sum.inr nexts` runs the successor loop: report a cycle on a successor
already on the recursion stack, recurse into unvisited successors.  Every
recursive call decrements `fuel`; the Go call depth is bounded by the
number of nodes plus edges of the graph, so with the fuel
`BufferPool.hasCycle` supplies the fuel-exhausted branch is unreachable
and the function computes exactly the Go DFS. -/
def dfsF (deps : List (TransactionID × List TransactionID)) :
    Nat → TransactionID ⊕ List TransactionID →
      List TransactionID → List TransactionID →
      Bool × List TransactionID × List TransactionID
  | 0, _, cur, vis => (false, cur, vis)
  | fuel + 1, Sum.inl tid, cur, vis =>
    match dfsF deps fuel (Sum.inr (succsOf deps tid)) (tid :: cur)
      (tid :: vis) with
    | (true, c, v) => (true, c, v)
    | (false, c, v) => (false, c.erase tid, v)
  | _ + 1, Sum.inr [], cur, vis => (false, cur, vis)
  | fuel + 1, Sum.inr (nxt :: rest), cur, vis =>
    if nxt ∈ vis then
      if nxt ∈ cur then (true, cur, vis)
      else dfsF deps fuel (Sum.inr rest) cur vis
    else
      match dfsF deps fuel (Sum.inl nxt) cur vis with
      | (true, c, v) => (true, c, v)
      | (false, c, v) => dfsF deps fuel (Sum.inr rest) c v

/-- The outer `for tid := range bp.currentTransactions` loop of
`hasCycle`: run the DFS from every not-yet-visited active transaction,
keeping `visited` across starts. -/
def hasCycleOuter (deps : List (TransactionID × List TransactionID))
    (fuel : Nat) : List TransactionID → List TransactionID → Bool
  | [], _ => false
  | tid :: rest, vis =>
    if tid ∈ vis then hasCycleOuter deps fuel rest vis
    else
      match dfsF deps fuel (Sum.inl tid) [] vis with
      | (true, _, _) => true
      | (false, _, v) => hasCycleOuter deps fuel rest v

/-- Fuel that strictly dominates the Go DFS call depth (at most two steps
per node plus one per edge). -/
def dfsFuel (bp : BufferPool) : Nat :=
  2 * (bp.currentTransactions.length + bp.transactionDependencies.length +
    (bp.transactionDependencies.map fun e => e.2.length).sum) + 2

/-- `BufferPool.hasCycle` from `buffer_pool.go`: DFS with a recursion-stack
marker over the whole wait-for graph, started from every active
transaction.  It reports any cycle in the graph, whichever transactions it
runs through. -/
def BufferPool.hasCycle (bp : BufferPool) : Bool :=
  hasCycleOuter bp.transactionDependencies (dfsFuel bp)
    bp.currentTransactions []

/-- `BufferPool.addDependencyIfLocked` from `buffer_pool.go`: when
`otherTID` holds (in `locks`) a lock on `key`, record the wait-for edge
`tid → otherTID` and report a conflict.  (Go would panic if `tid` had no
dependency entry; `BeginTransaction` always creates it for an active
`tid`, and the model creates it on demand.) -/
def addDependencyIfLocked (bp : BufferPool) (otherTID tid : TransactionID)
    (key : PageKey) (locks : List (TransactionID × List PageKey)) :
    Bool × BufferPool :=
  if key ∈ (List.lookup otherTID locks).getD [] then
    let deps := assocSet bp.transactionDependencies tid
      (insertUniq otherTID
        ((List.lookup tid bp.transactionDependencies).getD []))
    (true, { bp with transactionDependencies := deps })
  else (false, bp)

/-- The `for otherTID := range bp.currentTransactions` loop of
`checkConflictingLocks`: skip `tid` itself; for a read request only write
locks conflict, for a write request read locks are checked first and write
locks only when no read lock matched (Go's short-circuit `||`); stop at the
first conflict. -/
def checkConflictLoop (tid : TransactionID) (key : PageKey) (perm : RWPerm) :
    List TransactionID → BufferPool → Bool × BufferPool
  | [], bp => (false, bp)
  | other :: rest, bp =>
    if other = tid then checkConflictLoop tid key perm rest bp
    else
      let step :=
        match perm with
        | .ReadPerm =>
          addDependencyIfLocked bp other tid key bp.writePermissionLocks
        | .WritePerm =>
          let r1 :=
            addDependencyIfLocked bp other tid key bp.readPermissionLocks
          if r1.1 then r1
          else addDependencyIfLocked r1.2 other tid key
            r1.2.writePermissionLocks
      if step.1 then (true, step.2)
      else checkConflictLoop tid key perm rest step.2

/-- `BufferPool.checkConflictingLocks` from `buffer_pool.go`. -/
def BufferPool.checkConflictingLocks (bp : BufferPool)
    (tid : TransactionID) (key : PageKey) (perm : RWPerm) :
    Bool × BufferPool :=
  checkConflictLoop tid key perm bp.currentTransactions bp

/-- One iteration of the `for pageKey := range bp.writePermissionLocks[tid]`
loop of `rollbackTransactionPages`: when the page is cached and dirty, drop
it from the cache and decrement `NumPages`. -/
def rollbackStep (b : BufferPool) (k : PageKey) : BufferPool :=
  match List.lookup k b.Pages with
  | some pg =>
    if pg.dirty then
      { b with Pages := assocErase b.Pages k, NumPages := b.NumPages - 1 }
    else b
  | none => b

/-- `BufferPool.rollbackTransactionPages` from `buffer_pool.go`: every
dirty cached page the transaction holds a write lock on is dropped from the
cache — and `NumPages` (the configured capacity) is decremented alongside. -/
def BufferPool.rollbackTransactionPages (bp : BufferPool)
    (tid : TransactionID) : BufferPool :=
  ((List.lookup tid bp.writePermissionLocks).getD []).foldl rollbackStep bp

/-- `BufferPool.removeTransactionLocks` from `buffer_pool.go`. -/
def BufferPool.removeTransactionLocks (bp : BufferPool)
    (tid : TransactionID) : BufferPool :=
  { bp with
    writePermissionLocks := assocErase bp.writePermissionLocks tid,
    transactionDependencies := assocErase bp.transactionDependencies tid,
    currentTransactions := bp.currentTransactions.filter (fun t => ¬t = tid),
    readPermissionLocks := assocErase bp.readPermissionLocks tid }

/-- `BufferPool.AbortTransaction` from `buffer_pool.go`: a no-op for an
inactive transaction; otherwise roll back the transaction's dirty pages,
drop its lock sets and dependency entry, and remove it from every other
transaction's dependency set.  (The trailing 1 ms sleep is timing only.) -/
def BufferPool.AbortTransaction (bp : BufferPool) (tid : TransactionID) :
    BufferPool :=
  if tid ∈ bp.currentTransactions then
    let b1 := (bp.rollbackTransactionPages tid).removeTransactionLocks tid
    { b1 with transactionDependencies :=
        b1.transactionDependencies.map fun e =>
          (e.1, e.2.filter fun t => ¬t = tid) }
  else bp

/-- The error outcomes `GetPage` can surface. -/
inductive PoolError where
  | invalidTransaction
  | deadlockAborted
  | bufferPoolFull
  | readPageFailed
deriving DecidableEq, Repr

/-- The `for key, page := range bp.Pages` loop of `evictPage`: drop the
first non-dirty page, fail when every page is dirty. -/
def evictPages : List (PageKey × CachedPage) →
    Option (List (PageKey × CachedPage))
  | [] => none
  | e :: rest =>
    if e.2.dirty then (evictPages rest).map (e :: ·) else some rest

/-- `BufferPool.evictPage` from `buffer_pool.go`: evict any non-dirty page
(the Go map iteration order is unspecified; the model takes list order);
`GoDBError{BufferPoolFullError, ...}` when all pages are dirty.  The
lock tables are not consulted. -/
def BufferPool.evictPage (bp : BufferPool) : Except PoolError BufferPool :=
  match evictPages bp.Pages with
  | some l => .ok { bp with Pages := l }
  | none => .error .bufferPoolFull

/-- The outcome of one `GetPage` attempt.  `ok key` returns the cached page
at `key`; `blocked` is the Go path that sleeps 5 ms and retries the
conflict check (progress requires another thread to act, so the embedding
surfaces it as an outcome of the atomic step). -/
inductive GetPageResult where
  | ok (key : PageKey)
  | blocked
  | err (e : PoolError)
deriving DecidableEq, Repr

/-- Lock acquisition in `GetPage` step 5: add `key` to the requesting
transaction's read or write lock set. -/
def acquireLock (bp : BufferPool) (tid : TransactionID) (perm : RWPerm)
    (key : PageKey) : BufferPool :=
  match perm with
  | .ReadPerm =>
    let l := assocSet bp.readPermissionLocks tid
      (insertUniq key ((List.lookup tid bp.readPermissionLocks).getD []))
    { bp with readPermissionLocks := l }
  | .WritePerm =>
    let l := assocSet bp.writePermissionLocks tid
      (insertUniq key ((List.lookup tid bp.writePermissionLocks).getD []))
    { bp with writePermissionLocks := l }

/-- The cache phase of `GetPage` (steps 6–8): return a cached page; on a
miss with a full cache, evict first (failing when all pages are dirty);
then read the page from disk (`readPage` is the disk read's result —
`none` models a read error) and cache it. -/
def fetchPage (bp : BufferPool) (key : PageKey)
    (readPage : Option CachedPage) : GetPageResult × BufferPool :=
  if (List.lookup key bp.Pages).isSome then (.ok key, bp)
  else
    let readIn := fun (b : BufferPool) =>
      match readPage with
      | none => (GetPageResult.err .readPageFailed, b)
      | some pg => (GetPageResult.ok key, { b with Pages := b.Pages ++ [(key, pg)] })
    if (bp.Pages.length : Int) ≥ bp.NumPages then
      match bp.evictPage with
      | .error e => (.err e, bp)
      | .ok b2 => readIn b2
    else readIn bp

/-- One attempt of `BufferPool.GetPage` from `buffer_pool.go` (one
iteration of its conflict-retry loop): fail for an inactive transaction;
record wait-for edges for conflicting locks and, if any conflict was found,
either abort `tid` with a deadlock error (when the cycle check fires) or
report `blocked` (Go sleeps and retries); otherwise acquire the requested
lock and run the cache phase.  `key` stands for `file.pageKey(pageNumber)`. -/
def BufferPool.GetPage (bp : BufferPool) (key : PageKey)
    (readPage : Option CachedPage) (tid : TransactionID) (perm : RWPerm) :
    GetPageResult × BufferPool :=
  if tid ∈ bp.currentTransactions then
    match bp.checkConflictingLocks tid key perm with
    | (true, bp1) =>
      if bp1.hasCycle then (.err .deadlockAborted, bp1.AbortTransaction tid)
      else (.blocked, bp1)
    | (false, bp1) => fetchPage (acquireLock bp1 tid perm key) key readPage
  else (.err .invalidTransaction, bp)

/-- The lock set the given permission adds to
(`readPermissionLocks[tid]` / `writePermissionLocks[tid]`). -/
def lockSetOf (bp : BufferPool) (tid : TransactionID) : RWPerm → List PageKey
  | .ReadPerm => (List.lookup tid bp.readPermissionLocks).getD []
  | .WritePerm => (List.lookup tid bp.writePermissionLocks).getD []

/-! ### Frame lemmas for the buffer pool operations -/

theorem assocSet_lookup_self {β : Type} (l : List (Nat × β)) (k : Nat)
    (v : β) : List.lookup k (assocSet l k v) = some v := by
  induction l with
  | nil => simp [assocSet, List.lookup]
  | cons e rest ih =>
    obtain ⟨e1, e2⟩ := e
    by_cases he : e1 = k
    · simp [assocSet, he, List.lookup]
    · have hbeq : (k == e1) = false := by simp [Ne.symm he]
      simp [assocSet, he, List.lookup, hbeq, ih]

theorem mem_insertUniq_self (x : Nat) (l : List Nat) : x ∈ insertUniq x l := by
  unfold insertUniq
  by_cases hx : x ∈ l
  · rw [if_pos hx]
    exact hx
  · simp [hx]

theorem acquireLock_lockSet (bp : BufferPool) (tid : TransactionID)
    (perm : RWPerm) (key : PageKey) :
    key ∈ lockSetOf (acquireLock bp tid perm key) tid perm := by
  cases perm with
  | ReadPerm =>
    simp only [acquireLock, lockSetOf, assocSet_lookup_self, Option.getD_some]
    exact mem_insertUniq_self key _
  | WritePerm =>
    simp only [acquireLock, lockSetOf, assocSet_lookup_self, Option.getD_some]
    exact mem_insertUniq_self key _

theorem acquireLock_frame (bp : BufferPool) (tid : TransactionID)
    (perm : RWPerm) (key : PageKey) :
    (acquireLock bp tid perm key).Pages = bp.Pages ∧
    (acquireLock bp tid perm key).NumPages = bp.NumPages ∧
    (acquireLock bp tid perm key).currentTransactions =
      bp.currentTransactions := by
  cases perm <;> exact ⟨rfl, rfl, rfl⟩

theorem addDependencyIfLocked_frame (bp : BufferPool)
    (otherTID tid : TransactionID) (key : PageKey)
    (locks : List (TransactionID × List PageKey)) :
    ((addDependencyIfLocked bp otherTID tid key locks).2).Pages = bp.Pages ∧
    ((addDependencyIfLocked bp otherTID tid key locks).2).NumPages =
      bp.NumPages ∧
    ((addDependencyIfLocked bp otherTID tid key locks).2).readPermissionLocks
      = bp.readPermissionLocks ∧
    ((addDependencyIfLocked bp otherTID tid key locks).2).writePermissionLocks
      = bp.writePermissionLocks ∧
    ((addDependencyIfLocked bp otherTID tid key locks).2).currentTransactions
      = bp.currentTransactions := by
  unfold addDependencyIfLocked
  split
  · exact ⟨rfl, rfl, rfl, rfl, rfl⟩
  · exact ⟨rfl, rfl, rfl, rfl, rfl⟩

theorem checkConflictLoop_frame (tid : TransactionID) (key : PageKey)
    (perm : RWPerm) (l : List TransactionID) (bp : BufferPool) :
    ((checkConflictLoop tid key perm l bp).2).Pages = bp.Pages ∧
    ((checkConflictLoop tid key perm l bp).2).NumPages = bp.NumPages ∧
    ((checkConflictLoop tid key perm l bp).2).readPermissionLocks =
      bp.readPermissionLocks ∧
    ((checkConflictLoop tid key perm l bp).2).writePermissionLocks =
      bp.writePermissionLocks ∧
    ((checkConflictLoop tid key perm l bp).2).currentTransactions =
      bp.currentTransactions := by
  induction l generalizing bp with
  | nil => exact ⟨rfl, rfl, rfl, rfl, rfl⟩
  | cons other rest ih =>
    simp only [checkConflictLoop]
    by_cases ho : other = tid
    · rw [if_pos ho]
      exact ih bp
    · rw [if_neg ho]
      cases perm with
      | ReadPerm =>
        simp only
        set r := addDependencyIfLocked bp other tid key
          bp.writePermissionLocks with hr
        obtain ⟨f1, f2, f3, f4, f5⟩ :=
          addDependencyIfLocked_frame bp other tid key
            bp.writePermissionLocks
        by_cases hc : r.1 = true
        · rw [if_pos hc]
          rw [← hr] at f1 f2 f3 f4 f5
          exact ⟨f1, f2, f3, f4, f5⟩
        · rw [if_neg hc]
          obtain ⟨g1, g2, g3, g4, g5⟩ := ih r.2
          rw [← hr] at f1 f2 f3 f4 f5
          exact ⟨g1.trans f1, g2.trans f2, g3.trans f3, g4.trans f4,
            g5.trans f5⟩
      | WritePerm =>
        simp only
        set r1 := addDependencyIfLocked bp other tid key
          bp.readPermissionLocks with hr1
        obtain ⟨f1, f2, f3, f4, f5⟩ :=
          addDependencyIfLocked_frame bp other tid key bp.readPermissionLocks
        rw [← hr1] at f1 f2 f3 f4 f5
        by_cases hc1 : r1.1 = true
        · rw [if_pos hc1]
          simp only [if_pos hc1]
          exact ⟨f1, f2, f3, f4, f5⟩
        · simp only [if_neg hc1]
          set r2 := addDependencyIfLocked r1.2 other tid key
            r1.2.writePermissionLocks with hr2
          obtain ⟨e1, e2, e3, e4, e5⟩ :=
            addDependencyIfLocked_frame r1.2 other tid key
              r1.2.writePermissionLocks
          rw [← hr2] at e1 e2 e3 e4 e5
          by_cases hc2 : r2.1 = true
          · rw [if_pos hc2]
            exact ⟨e1.trans f1, e2.trans f2, e3.trans f3, e4.trans f4,
              e5.trans f5⟩
          · rw [if_neg hc2]
            obtain ⟨g1, g2, g3, g4, g5⟩ := ih r2.2
            exact ⟨(g1.trans e1).trans f1, (g2.trans e2).trans f2,
              (g3.trans e3).trans f3, (g4.trans e4).trans f4,
              (g5.trans e5).trans f5⟩

theorem checkConflictingLocks_frame (bp : BufferPool) (tid : TransactionID)
    (key : PageKey) (perm : RWPerm) (c : Bool) (bp1 : BufferPool)
    (h : bp.checkConflictingLocks tid key perm = (c, bp1)) :
    bp1.Pages = bp.Pages ∧ bp1.NumPages = bp.NumPages ∧
    bp1.readPermissionLocks = bp.readPermissionLocks ∧
    bp1.writePermissionLocks = bp.writePermissionLocks ∧
    bp1.currentTransactions = bp.currentTransactions := by
  have := checkConflictLoop_frame tid key perm bp.currentTransactions bp
  rw [BufferPool.checkConflictingLocks] at h
  rw [h] at this
  exact this

theorem rollbackStep_frame (b : BufferPool) (k : PageKey) :
    (rollbackStep b k).currentTransactions = b.currentTransactions ∧
    (rollbackStep b k).readPermissionLocks = b.readPermissionLocks ∧
    (rollbackStep b k).writePermissionLocks = b.writePermissionLocks ∧
    (rollbackStep b k).transactionDependencies =
      b.transactionDependencies := by
  unfold rollbackStep
  split
  · split
    · exact ⟨rfl, rfl, rfl, rfl⟩
    · exact ⟨rfl, rfl, rfl, rfl⟩
  · exact ⟨rfl, rfl, rfl, rfl⟩

theorem foldl_rollbackStep_current (keys : List PageKey) (b : BufferPool) :
    ((keys.foldl rollbackStep b).currentTransactions =
      b.currentTransactions) := by
  induction keys generalizing b with
  | nil => rfl
  | cons k rest ih =>
    rw [List.foldl_cons, ih (rollbackStep b k),
      (rollbackStep_frame b k).1]

theorem AbortTransaction_not_current (bp : BufferPool)
    (tid : TransactionID) (hact : tid ∈ bp.currentTransactions) :
    tid ∉ (bp.AbortTransaction tid).currentTransactions := by
  rw [BufferPool.AbortTransaction, if_pos hact]
  simp only [BufferPool.removeTransactionLocks]
  simp [List.mem_filter]

theorem evictPage_error_kind (bp : BufferPool) (e : PoolError)
    (h : bp.evictPage = .error e) : e = .bufferPoolFull := by
  rw [BufferPool.evictPage] at h
  rcases hm : evictPages bp.Pages with _ | l
  · rw [hm] at h
    simpa using h.symm
  · rw [hm] at h
    simp at h

theorem fetchPage_shape (b : BufferPool) (key : PageKey)
    (readPage : Option CachedPage) :
    (fetchPage b key readPage).1 = .ok key ∨
    (fetchPage b key readPage).1 = .err .bufferPoolFull ∨
    (fetchPage b key readPage).1 = .err .readPageFailed := by
  rw [fetchPage]
  split
  · exact Or.inl rfl
  · simp only
    split
    · cases he : b.evictPage with
      | error e =>
        rw [evictPage_error_kind b e he]
        exact Or.inr (Or.inl rfl)
      | ok b2 =>
        cases readPage with
        | none => exact Or.inr (Or.inr rfl)
        | some pg => exact Or.inl rfl
    · cases readPage with
      | none => exact Or.inr (Or.inr rfl)
      | some pg => exact Or.inl rfl

theorem fetchPage_locks (b : BufferPool) (key : PageKey)
    (readPage : Option CachedPage) :
    ((fetchPage b key readPage).2).readPermissionLocks =
      b.readPermissionLocks ∧
    ((fetchPage b key readPage).2).writePermissionLocks =
      b.writePermissionLocks := by
  rw [fetchPage]
  split
  · exact ⟨rfl, rfl⟩
  · simp only
    split
    · cases he : b.evictPage with
      | error e => exact ⟨rfl, rfl⟩
      | ok b2 =>
        have hb2 : b2.readPermissionLocks = b.readPermissionLocks ∧
            b2.writePermissionLocks = b.writePermissionLocks := by
          rw [BufferPool.evictPage] at he
          rcases hm : evictPages b.Pages with _ | l
          · rw [hm] at he
            simp at he
          · rw [hm] at he
            simp only [Except.ok.injEq] at he
            rw [← he]
            exact ⟨rfl, rfl⟩
        cases readPage with
        | none => exact hb2
        | some pg => exact hb2
    · cases readPage with
      | none => exact ⟨rfl, rfl⟩
      | some pg => exact ⟨rfl, rfl⟩

/-! ### Claim C3: eviction policy -/

theorem evictPages_preserves_dirty (l l' : List (PageKey × CachedPage))
    (h : evictPages l = some l') :
    ∀ e ∈ l, e.2.dirty = true → e ∈ l' := by
  induction l generalizing l' with
  | nil => simp [evictPages] at h
  | cons p rest ih =>
    rw [evictPages] at h
    by_cases hd : p.2.dirty
    · rw [if_pos hd] at h
      rcases hm : evictPages rest with _ | r'
      · rw [hm] at h
        simp at h
      · rw [hm] at h
        simp only [Option.map_some'] at h
        have hl := Option.some_inj.mp h
        intro e he hde
        rcases List.mem_cons.mp he with rfl | hmem
        · rw [← hl]
          exact List.mem_cons_self _ _
        · rw [← hl]
          exact List.mem_cons_of_mem _ (ih r' hm e hmem hde)
    · rw [if_neg hd] at h
      intro e he hde
      rcases List.mem_cons.mp he with rfl | hmem
      · exact absurd hde hd
      · rw [← Option.some_inj.mp h]
        exact hmem

theorem evictPages_all_dirty (l : List (PageKey × CachedPage))
    (h : ∀ e ∈ l, e.2.dirty = true) : evictPages l = none := by
  induction l with
  | nil => rfl
  | cons p rest ih =>
    rw [evictPages, if_pos (h p (List.mem_cons_self _ _)),
      ih fun e he => h e (List.mem_cons_of_mem _ he)]
    rfl

/-- The concrete pool of the C3 counterexample: one clean cached page
(key 1) read-locked by the active transaction 1; capacity 1. -/
def cex3Pool : BufferPool :=
  { Pages := [(1, { dirty := false })], NumPages := 1,
    transactionDependencies := [(1, []), (2, [])],
    readPermissionLocks := [(1, [1]), (2, [])],
    writePermissionLocks := [(1, []), (2, [])],
    currentTransactions := [1, 2] }

/-- C3, counterexample: transaction 2 requests the uncached page 2 while
the cache is full; `evictPage` evicts the clean page 1 even though the
active transaction 1 holds a read lock on it — the claim's "never evict a
page under active lock" fails (the eviction loop never consults the lock
tables). -/
theorem C3_evicts_locked_page :
    1 ∈ (List.lookup 1 cex3Pool.readPermissionLocks).getD [] ∧
    1 ∈ cex3Pool.currentTransactions ∧
    List.lookup 1 cex3Pool.Pages = some { dirty := false } ∧
    (cex3Pool.GetPage 2 (some { dirty := false }) 2 .ReadPerm).1 = .ok 2 ∧
    List.lookup 1
      ((cex3Pool.GetPage 2 (some { dirty := false }) 2 .ReadPerm).2).Pages
      = none := by
  refine ⟨by decide, by decide, by decide, by decide, by decide⟩

/-- C3, amended: the buffer pool never evicts a dirty page (every dirty
cached entry survives a successful eviction), and when every cached page is
dirty a conflict-free `GetPage` on an uncached page with a full cache fails
with the buffer-pool-full error; but a clean page may be evicted even while
an active transaction holds a lock on it. -/
theorem C3_no_steal_eviction (bp : BufferPool) :
    (∀ bp', bp.evictPage = .ok bp' →
      ∀ e ∈ bp.Pages, e.2.dirty = true → e ∈ bp'.Pages) ∧
    ((∀ e ∈ bp.Pages, e.2.dirty = true) →
      ∀ key readPage tid perm bp1,
        tid ∈ bp.currentTransactions →
        bp.checkConflictingLocks tid key perm = (false, bp1) →
        List.lookup key bp.Pages = none →
        (bp.Pages.length : Int) ≥ bp.NumPages →
        (bp.GetPage key readPage tid perm).1 = .err .bufferPoolFull) := by
  constructor
  · intro bp' hok e he hde
    rw [BufferPool.evictPage] at hok
    rcases hm : evictPages bp.Pages with _ | l
    · rw [hm] at hok
      simp at hok
    · rw [hm] at hok
      simp only [Except.ok.injEq] at hok
      rw [← hok]
      exact evictPages_preserves_dirty bp.Pages l hm e he hde
  · intro hdirty key readPage tid perm bp1 hact hconf hmiss hfull
    obtain ⟨f1, f2, _, _, _⟩ :=
      checkConflictingLocks_frame bp tid key perm false bp1 hconf
    obtain ⟨a1, a2, _⟩ := acquireLock_frame bp1 tid perm key
    rw [BufferPool.GetPage, if_pos hact, hconf]
    simp only
    rw [fetchPage]
    have hmiss' : (List.lookup key
        (acquireLock bp1 tid perm key).Pages).isSome = false := by
      rw [a1, f1, hmiss]
      rfl
    rw [hmiss']
    simp only [Bool.false_eq_true, if_false]
    have hfull' : ((acquireLock bp1 tid perm key).Pages.length : Int) ≥
        (acquireLock bp1 tid perm key).NumPages := by
      rw [a1, a2, f1, f2]
      exact hfull
    rw [if_pos hfull']
    have hev : (acquireLock bp1 tid perm key).evictPage =
        .error .bufferPoolFull := by
      rw [BufferPool.evictPage, a1, f1, evictPages_all_dirty _ hdirty]
    rw [hev]

/-- A fully dirty one-page pool: the concrete input of the C3 and C10
witnesses' buffer-pool-full path. -/
def cexDirtyPool : BufferPool :=
  { Pages := [(5, { dirty := true })], NumPages := 1,
    transactionDependencies := [(1, [])],
    readPermissionLocks := [(1, [])],
    writePermissionLocks := [(1, [])],
    currentTransactions := [1] }

/-- Witness: `C3_no_steal_eviction` on the concrete all-dirty pool — the
dirty page survives any successful eviction (vacuously, eviction fails),
and the conflict-free `GetPage` on uncached page 6 fails with
buffer-pool-full. -/
theorem C3_no_steal_eviction_witness :
    (cexDirtyPool.GetPage 6 (some { dirty := false }) 1 .ReadPerm).1 =
      .err .bufferPoolFull :=
  (C3_no_steal_eviction cexDirtyPool).2 (by decide) 6
    (some { dirty := false }) 1 .ReadPerm cexDirtyPool (by decide)
    (by decide) (by decide) (by decide)

/-! ### Claim C4: deadlock detection and the abort victim -/

/-- Bounded reachability along the wait-for edges: is there a path of at
most `fuel` edges from `a` to `b`?  (A formalization of the claim's
wait-for-graph reachability, used to state what a "cycle involving txn"
is.) -/
def reachableB (deps : List (TransactionID × List TransactionID)) :
    Nat → TransactionID → TransactionID → Bool
  | 0, a, b => a == b
  | fuel + 1, a, b =>
    a == b || (succsOf deps a).any fun s => reachableB deps fuel s b

/-- The claim's "the wait-for graph contains a cycle involving txn": some
edge leaves `t` and reaches back to `t`.  The fuel covers every simple
path. -/
def cycleInvolvingB (deps : List (TransactionID × List TransactionID))
    (t : TransactionID) : Bool :=
  (succsOf deps t).any fun s =>
    reachableB deps (deps.length + (deps.map fun e => e.2.length).sum + 1) s t

/-- The concrete pool of the C4 counterexample: transactions 1 and 2
deadlock each other (edges 1→2 and 2→1); transaction 4 write-locks page 7;
transaction 3 is involved in no cycle. -/
def cex4Pool : BufferPool :=
  { Pages := [], NumPages := 10,
    transactionDependencies := [(1, [2]), (2, [1]), (3, []), (4, [])],
    readPermissionLocks := [(1, []), (2, []), (3, []), (4, [])],
    writePermissionLocks := [(1, []), (2, []), (3, []), (4, [7])],
    currentTransactions := [1, 2, 3, 4] }

/-- C4, counterexample: transaction 3's write request on page 7 conflicts
with 4's write lock (adding only the edge 3→4), and the wait-for graph
after the conflict check contains no cycle involving 3 — yet `GetPage`
aborts 3 with a deadlock error, because `hasCycle` reports the unrelated
1↔2 cycle.  The claim's "if and only if the wait-for graph contains a
cycle involving txn" fails. -/
theorem C4_aborts_victim_outside_cycle :
    (cex4Pool.GetPage 7 none 3 .WritePerm).1 = .err .deadlockAborted ∧
    3 ∉ ((cex4Pool.GetPage 7 none 3 .WritePerm).2).currentTransactions ∧
    cycleInvolvingB
      ((cex4Pool.checkConflictingLocks 3 7 .WritePerm).2).transactionDependencies
      3 = false := by
  refine ⟨by decide, by decide, by decide⟩

/-- C4, amended: a conflicted `GetPage` aborts the requesting transaction
and fails with a deadlock error if and only if the DFS cycle check reports
a cycle anywhere in the wait-for graph (not only a cycle involving the
requester); with conflicts but no such cycle the call blocks (sleeps and
retries); and when the deadlock error is returned the victim has already
been aborted — its entry is gone from the active set — before the error
surfaces. -/
theorem C4_deadlock_iff_any_cycle (bp : BufferPool) (key : PageKey)
    (readPage : Option CachedPage) (tid : TransactionID) (perm : RWPerm)
    (conflict : Bool) (bp1 : BufferPool)
    (hact : tid ∈ bp.currentTransactions)
    (hconf : bp.checkConflictingLocks tid key perm = (conflict, bp1)) :
    ((bp.GetPage key readPage tid perm).1 = .err .deadlockAborted ↔
      conflict = true ∧ bp1.hasCycle = true) ∧
    ((bp.GetPage key readPage tid perm).1 = .blocked ↔
      conflict = true ∧ bp1.hasCycle = false) ∧
    ((bp.GetPage key readPage tid perm).1 = .err .deadlockAborted →
      (bp.GetPage key readPage tid perm).2 = bp1.AbortTransaction tid ∧
      tid ∉ ((bp.GetPage key readPage tid perm).2).currentTransactions) := by
  have hcur : bp1.currentTransactions = bp.currentTransactions :=
    (checkConflictingLocks_frame bp tid key perm conflict bp1 hconf).2.2.2.2
  rw [BufferPool.GetPage, if_pos hact, hconf]
  cases conflict with
  | true =>
    simp only
    by_cases hc : bp1.hasCycle
    · rw [if_pos hc]
      refine ⟨by simp [hc], by simp [hc], fun _ => ⟨rfl, ?_⟩⟩
      exact AbortTransaction_not_current bp1 tid (hcur ▸ hact)
    · rw [if_neg hc]
      simp only [Bool.not_eq_true] at hc
      exact ⟨by simp [hc], by simp [hc], by simp⟩
  | false =>
    simp only
    rcases fetchPage_shape (acquireLock bp1 tid perm key) key readPage with
      hs | hs | hs <;>
      exact ⟨by simp [hs], by simp [hs], by simp [hs]⟩

/-- The wait-for state of `cex4Pool` after transaction 3's conflict check
(edge 3→4 recorded). -/
def cex4PoolAfter : BufferPool :=
  { Pages := [], NumPages := 10,
    transactionDependencies := [(1, [2]), (2, [1]), (3, [4]), (4, [])],
    readPermissionLocks := [(1, []), (2, []), (3, []), (4, [])],
    writePermissionLocks := [(1, []), (2, []), (3, []), (4, [7])],
    currentTransactions := [1, 2, 3, 4] }

/-- Witness: `C4_deadlock_iff_any_cycle` on the concrete deadlock state of
`cex4Pool`. -/
theorem C4_deadlock_iff_any_cycle_witness :
    ((cex4Pool.GetPage 7 none 3 .WritePerm).1 = .err .deadlockAborted ↔
      true = true ∧ cex4PoolAfter.hasCycle = true) ∧
    ((cex4Pool.GetPage 7 none 3 .WritePerm).1 = .blocked ↔
      true = true ∧ cex4PoolAfter.hasCycle = false) ∧
    ((cex4Pool.GetPage 7 none 3 .WritePerm).1 = .err .deadlockAborted →
      (cex4Pool.GetPage 7 none 3 .WritePerm).2 =
        cex4PoolAfter.AbortTransaction 3 ∧
      3 ∉ ((cex4Pool.GetPage 7 none 3 .WritePerm).2).currentTransactions) :=
  C4_deadlock_iff_any_cycle cex4Pool 7 none 3 .WritePerm true cex4PoolAfter
    (by decide) (by decide)

/-! ### Claim C9: AbortTransaction and the pool capacity -/

/-- The concrete pool of the C9 failing input: capacity 3, one cached dirty
page write-locked by the active transaction 1. -/
def c9Pool : BufferPool :=
  { Pages := [(3, { dirty := true })], NumPages := 3,
    transactionDependencies := [(1, [])],
    readPermissionLocks := [(1, [])],
    writePermissionLocks := [(1, [3])],
    currentTransactions := [1] }

/-- C9, the code at the failing input: aborting transaction 1 removes its
dirty page from the cache and clears the bookkeeping as the claim says —
but `rollbackTransactionPages` also decrements `NumPages`, the configured
cache capacity, from 3 to 2, contradicting the claim (and the pool's own
fixed-capacity contract). -/
theorem C9_abort_decrements_NumPages :
    c9Pool.NumPages = 3 ∧
    (c9Pool.AbortTransaction 1).NumPages = 2 ∧
    List.lookup 3 ((c9Pool.AbortTransaction 1).Pages) = none ∧
    (c9Pool.AbortTransaction 1).currentTransactions = [] := by
  refine ⟨by decide, by decide, by decide, by decide⟩

/-! ### Claim C10: a failed GetPage keeps the acquired lock -/

/-- C10: when a conflict-free `GetPage` fails after the wait phase — with
buffer-pool-full (all cached pages dirty) or with a disk read error — the
requested lock has already been added to the transaction's lock set and is
not rolled back: the final state still records `key` among `tid`'s locks
of the requested permission. -/
theorem C10_failed_GetPage_keeps_lock (bp : BufferPool) (key : PageKey)
    (readPage : Option CachedPage) (tid : TransactionID) (perm : RWPerm)
    (bp1 : BufferPool) (hact : tid ∈ bp.currentTransactions)
    (hconf : bp.checkConflictingLocks tid key perm = (false, bp1))
    (hfail : (bp.GetPage key readPage tid perm).1 = .err .bufferPoolFull ∨
      (bp.GetPage key readPage tid perm).1 = .err .readPageFailed) :
    key ∈ lockSetOf ((bp.GetPage key readPage tid perm).2) tid perm := by
  rw [BufferPool.GetPage, if_pos hact, hconf]
  simp only
  obtain ⟨hr, hw⟩ := fetchPage_locks (acquireLock bp1 tid perm key) key
    readPage
  have hmem := acquireLock_lockSet bp1 tid perm key
  cases perm with
  | ReadPerm =>
    simpa only [lockSetOf, hr] using hmem
  | WritePerm =>
    simpa only [lockSetOf, hw] using hmem

/-- Witness: `C10_failed_GetPage_keeps_lock` on the all-dirty pool — the
buffer-pool-full failure leaves transaction 1 holding the write lock on
page 6 it never received. -/
theorem C10_failed_GetPage_keeps_lock_witness :
    6 ∈ lockSetOf ((cexDirtyPool.GetPage 6 none 1 .WritePerm).2) 1
      .WritePerm :=
  C10_failed_GetPage_keeps_lock cexDirtyPool 6 none 1 .WritePerm
    cexDirtyPool (by decide) (by decide) (Or.inl (by decide))

/-! ### Heap file (`heap_file.go`)

The buffer pool plumbing is abstracted away: `BufferPool.GetPage` hands the
file's own page back to it, so the embedding keeps the pages in the file
record and a fetch of page `i` is `pages.get? i` (failing, as `GetPage`
does, for a page number past the end of the file).  `pagesNum` is
`pages.length`; the backing file itself only matters through `flushPage`
clearing the dirty bit of a newly created page. -/

/-- The error outcomes of the heap-file operations modelled here. -/
inductive HFError where
  | invalidTupleArity
  | pageMissing
  | newPageFailed
  | insertFailed
  | deleteFailed
deriving DecidableEq, Repr

/-- `HeapFile` from `heap_file.go` (lock and pool fields dropped as
above). -/
structure HeapFile where
  tupleDesc : TupleDesc
  pages : List heapPage
  availablePages : List Bool
deriving DecidableEq, Repr

instance : Inhabited HeapFile :=
  ⟨{ tupleDesc := { Fields := [] }, pages := [], availablePages := [] }⟩

/-- The `for pageNo, idle := range f.availablePages` loop of
`HeapFile.insertTuple`: skip pages whose availability flag is false
(without fetching them); fetch a flagged page, take it if its occupancy is
below capacity, otherwise clear its flag and continue.  Returns the updated
flag vector and the index of the page found, if any. -/
def scanAvail (pages : List heapPage) :
    Nat → List Bool → Except HFError (List Bool × Option Nat)
  | _, [] => .ok ([], none)
  | i, idle :: rest =>
    if idle then
      match pages.get? i with
      | none => .error .pageMissing
      | some pg =>
        if pg.numUsedSlots < pg.numSlots then .ok (idle :: rest, some i)
        else
          match scanAvail pages (i + 1) rest with
          | .error e => .error e
          | .ok (rest', found) => .ok (false :: rest', found)
    else
      match scanAvail pages (i + 1) rest with
      | .error e => .error e
      | .ok (rest', found) => .ok (idle :: rest', found)

/-- `HeapFile.insertTuple` together with `HeapFile.createNewPage` from
`heap_file.go`: reject a tuple whose field count disagrees with its
descriptor; walk the availability vector for a flagged page with room and
insert there (marking the page dirty); if none is found, create a new page,
insert the tuple into it, flush it (clearing its dirty bit), append it to
the file and flag it available. -/
def HeapFile.insertTuple (f : HeapFile) (t : Tuple) :
    Except HFError HeapFile :=
  if t.Fields.length = t.Desc.Fields.length then
    match scanAvail f.pages 0 f.availablePages with
    | .error e => .error e
    | .ok (flags', some i) =>
      match f.pages.get? i with
      | none => .error .pageMissing
      | some pg =>
        match pg.insertTuple t with
        | none => .error .insertFailed
        | some (pg', _) =>
          .ok { f with pages := f.pages.set i pg',
                       availablePages := flags' }
    | .ok (flags', none) =>
      match newHeapPage f.tupleDesc f.pages.length with
      | none => .error .newPageFailed
      | some np =>
        match np.insertTuple t with
        | none => .error .insertFailed
        | some (np', _) =>
          .ok { f with pages := f.pages ++ [{ np' with Dirty := false }],
                       availablePages := flags' ++ [true] }
  else .error .invalidTupleArity

/-- `HeapFile.deleteTuple` from `heap_file.go`: a tuple with a `nil`
record id is silently accepted — the function returns success without
deleting anything.  Otherwise the record id's page is fetched under write
permission and the page-level delete runs.  (The string-parse error
branches of the Go code have no counterpart for the structured
`RecordID`.) -/
def HeapFile.deleteTuple (f : HeapFile) (t : Tuple) :
    Except HFError HeapFile :=
  match t.Rid with
  | none => .ok f
  | some rid =>
    match f.pages.get? rid.1 with
    | none => .error .pageMissing
    | some pg =>
      match pg.deleteTuple rid with
      | none => .error .deleteFailed
      | some pg' => .ok { f with pages := f.pages.set rid.1 pg' }

/-! ### Claim C7: insertTuple and the availability vector -/

theorem filterMap_id_replicate_none (k : Nat) :
    ((List.replicate k (none : Option Tuple)).filterMap id) = [] := by
  induction k with
  | zero => rfl
  | succ k ih => simp [List.replicate_succ, List.filterMap_cons, ih]

theorem setFirstFree_isSome (entry : Option Tuple) (l : List (Option Tuple))
    (h : (l.filterMap id).length < l.length) :
    ∃ l' i, setFirstFree entry l = some (l', i) ∧ l'.length = l.length := by
  induction l with
  | nil => simp at h
  | cons x rest ih =>
    cases x with
    | none => exact ⟨entry :: rest, 0, rfl, rfl⟩
    | some t =>
      have h' : (rest.filterMap id).length < rest.length := by
        simpa [List.filterMap_cons] using h
      obtain ⟨l', i, hset, hlen⟩ := ih h'
      exact ⟨some t :: l', i + 1, by simp [setFirstFree, hset], by simp [hlen]⟩

theorem heapPage_insert_succeeds (pg : heapPage) (t : Tuple)
    (hcount : pg.stored.length = pg.numUsedSlots)
    (hslots : pg.tuples.length = pg.numSlots)
    (hroom : pg.numUsedSlots < pg.numSlots) :
    ∃ pg' rid, pg.insertTuple t = some (pg', rid) ∧
      pg'.tuples.length = pg.tuples.length := by
  have h : (pg.tuples.filterMap id).length < pg.tuples.length := by
    rw [show pg.tuples.filterMap id = pg.stored from rfl, hcount, hslots]
    exact hroom
  obtain ⟨l', i, hset, hlen⟩ := setFirstFree_isSome none pg.tuples h
  refine ⟨{ pg with
            numUsedSlots := pg.numUsedSlots + 1,
            tuples := l'.set i
              (some { Desc := pg.desc, Fields := t.Fields,
                      Rid := some (pg.pageNumber, i) }),
            Dirty := true },
    (pg.pageNumber, i), ?_, ?_⟩
  · rw [heapPage.insertTuple, hset, Option.some_bind]
  · simp [List.length_set, hlen]

theorem scanAvail_ok (pages : List heapPage) (flags : List Bool) (i : Nat)
    (hpresent : ∀ j, j < flags.length → flags.getD j false = true →
      (pages.get? (i + j)).isSome = true) :
    ∃ fl' found, scanAvail pages i flags = .ok (fl', found) ∧
      fl'.length = flags.length ∧
      (∀ k, found = some k → ∃ j, k = i + j ∧ j < flags.length ∧
        flags.getD j false = true ∧ ∃ pg, pages.get? k = some pg ∧
          pg.numUsedSlots < pg.numSlots) ∧
      ((∃ j, j < flags.length ∧ flags.getD j false = true ∧
        ∃ pg, pages.get? (i + j) = some pg ∧
          pg.numUsedSlots < pg.numSlots) → found ≠ none) := by
  induction flags generalizing i with
  | nil =>
    refine ⟨[], none, rfl, rfl, by simp, ?_⟩
    rintro ⟨j, hj, _⟩
    simp at hj
  | cons idle rest ih =>
    have hshift : ∀ j, j < rest.length → rest.getD j false = true →
        (pages.get? (i + 1 + j)).isSome = true := by
      intro j hj hf
      have := hpresent (j + 1) (by simpa using Nat.succ_lt_succ hj)
        (by simpa using hf)
      simpa [Nat.add_assoc, Nat.add_comm 1 j] using this
    cases idle with
    | false =>
      obtain ⟨fl', found, hscan, hlen, hfound, hex⟩ := ih (i + 1) hshift
      refine ⟨false :: fl', found, ?_, by simp [hlen], ?_, ?_⟩
      · simp [scanAvail, hscan]
      · intro k hk
        obtain ⟨j, hkj, hj, hf, hpg⟩ := hfound k hk
        exact ⟨j + 1, by omega, by simpa using hj, by simpa using hf,
          hpg⟩
      · rintro ⟨j, hj, hf, pg, hpg, hroom⟩
        cases j with
        | zero => simp at hf
        | succ j' =>
          refine hex ⟨j', by simpa using hj, by simpa using hf, pg, ?_,
            hroom⟩
          rw [show i + 1 + j' = i + (j' + 1) by omega]
          exact hpg
    | true =>
      have hp0 := hpresent 0 (by simp) (by simp)
      rw [Nat.add_zero] at hp0
      obtain ⟨pg0, hpg0⟩ := Option.isSome_iff_exists.mp hp0
      have hpg0e : pages[i]? = some pg0 := by
        simpa [List.get?_eq_getElem?] using hpg0
      by_cases hroom0 : pg0.numUsedSlots < pg0.numSlots
      · refine ⟨true :: rest, some i, ?_, rfl, ?_, by simp⟩
        · simp [scanAvail, hpg0e, hroom0]
        · intro k hk
          obtain rfl : i = k := by simpa using hk
          exact ⟨0, by simp, by simp, by simp, pg0, hpg0, hroom0⟩
      · obtain ⟨fl', found, hscan, hlen, hfound, hex⟩ := ih (i + 1) hshift
        refine ⟨false :: fl', found, ?_, by simp [hlen], ?_, ?_⟩
        · simp [scanAvail, hpg0e, hroom0, hscan]
        · intro k hk
          obtain ⟨j, hkj, hj, hf, hpg⟩ := hfound k hk
          exact ⟨j + 1, by omega, by simpa using hj, by simpa using hf,
            hpg⟩
        · rintro ⟨j, hj, hf, pg, hpg, hroom⟩
          cases j with
          | zero =>
            rw [Nat.add_zero] at hpg
            rw [hpg0] at hpg
            obtain rfl : pg0 = pg := by simpa using hpg
            exact absurd hroom hroom0
          | succ j' =>
            refine hex ⟨j', by simpa using hj, by simpa using hf, pg, ?_,
              hroom⟩
            rw [show i + 1 + j' = i + (j' + 1) by omega]
            exact hpg

/-- C7, amended: `insertTuple` consults only the pages whose availability
flag is true, verifying those against actual occupancy: when some flagged
page has room the tuple goes into an existing page and the file does not
grow, and when every flagged page is actually full a new page is allocated
— even if an unflagged page (for example one freed by deletes, whose flag
`deleteTuple` never restores) has free slots. -/
theorem C7_insert_verifies_only_flagged (f : HeapFile) (t : Tuple)
    (harity : t.Fields.length = t.Desc.Fields.length)
    (hlen : f.availablePages.length ≤ f.pages.length)
    (hpw : ∀ pg ∈ f.pages, pg.tuples.length = pg.numSlots ∧
      pg.stored.length = pg.numUsedSlots)
    (hsz : 0 < tupleSizeOf f.tupleDesc)
    (hsz2 : tupleSizeOf f.tupleDesc ≤ PageSize - 8) :
    ((∃ j, j < f.availablePages.length ∧
        f.availablePages.getD j false = true ∧
        (f.pages.getD j default).numUsedSlots <
          (f.pages.getD j default).numSlots) →
      ∃ f', f.insertTuple t = .ok f' ∧
        f'.pages.length = f.pages.length) ∧
    ((∀ j, j < f.availablePages.length →
        f.availablePages.getD j false = true →
        (f.pages.getD j default).numSlots ≤
          (f.pages.getD j default).numUsedSlots) →
      ∃ f', f.insertTuple t = .ok f' ∧
        f'.pages.length = f.pages.length + 1) := by
  have hpresent : ∀ j, j < f.availablePages.length →
      f.availablePages.getD j false = true →
      (f.pages.get? (0 + j)).isSome = true := by
    intro j hj _
    rw [Nat.zero_add, List.get?_eq_get (lt_of_lt_of_le hj hlen)]
    rfl
  obtain ⟨fl', found, hscan, hlenfl, hfound, hex⟩ :=
    scanAvail_ok f.pages f.availablePages 0 hpresent
  have hgetD : ∀ j, j < f.pages.length →
      f.pages.get? j = some (f.pages.getD j default) := by
    intro j hj
    rw [List.get?_eq_get hj, List.getD_eq_get _ _ hj]
  constructor
  · rintro ⟨j, hj, hf, hroom⟩
    have hjp : j < f.pages.length := lt_of_lt_of_le hj hlen
    have hnn : found ≠ none := by
      refine hex ⟨j, hj, hf, f.pages.getD j default, ?_, hroom⟩
      rw [Nat.zero_add]
      exact hgetD j hjp
    obtain ⟨k, hk⟩ := Option.ne_none_iff_exists'.mp hnn
    obtain ⟨j', rfl, hj', hf', pg, hpg, hroompg⟩ := hfound k hk
    have hmem : pg ∈ f.pages := List.get?_mem hpg
    obtain ⟨hw1, hw2⟩ := hpw pg hmem
    obtain ⟨pg', rid, hins, _⟩ :=
      heapPage_insert_succeeds pg t hw2 hw1 hroompg
    refine ⟨{ f with
                pages := f.pages.set (0 + j') pg',
                availablePages := fl' },
      ?_, by simp⟩
    rw [HeapFile.insertTuple, if_pos harity, hscan, hk]
    simp only [hpg, hins]
  · intro hfull
    have hnone : found = none := by
      cases hfd : found with
      | none => rfl
      | some k =>
        obtain ⟨j', rfl, hj', hf', pg, hpg, hroompg⟩ := hfound k hfd
        have hjp : j' < f.pages.length := lt_of_lt_of_le hj' hlen
        rw [Nat.zero_add] at hpg
        rw [hgetD j' hjp] at hpg
        obtain rfl : f.pages.getD j' default = pg := by simpa using hpg
        exact absurd hroompg (not_lt.mpr (hfull j' hj' hf'))
    obtain ⟨np, hnp⟩ : ∃ np, newHeapPage f.tupleDesc f.pages.length
        = some np := by
      rw [newHeapPage, if_neg (by omega)]
      exact ⟨_, rfl⟩
    have hnp_fields : np.tuples = List.replicate
        ((PageSize - 8) / tupleSizeOf f.tupleDesc) none ∧
        np.numUsedSlots = 0 ∧ np.numSlots =
          (PageSize - 8) / tupleSizeOf f.tupleDesc := by
      rw [newHeapPage, if_neg (by omega)] at hnp
      obtain rfl := Option.some_inj.mp hnp
      exact ⟨rfl, rfl, rfl⟩
    obtain ⟨htup, huse, hns⟩ := hnp_fields
    have hone : 1 ≤ (PageSize - 8) / tupleSizeOf f.tupleDesc :=
      (Nat.one_le_div_iff hsz).mpr hsz2
    obtain ⟨np', rid, hins, _⟩ := heapPage_insert_succeeds np t
      (by rw [heapPage.stored, htup, filterMap_id_replicate_none, huse]; rfl)
      (by rw [htup, hns, List.length_replicate])
      (by rw [huse, hns]; omega)
    refine ⟨{ f with
                pages := f.pages ++ [{ np' with Dirty := false }],
                availablePages := fl' ++ [true] },
      ?_, by simp⟩
    rw [HeapFile.insertTuple, if_pos harity, hscan, hnone]
    simp only [hnp, hins]

/-- The field descriptor of the C7 scenario: 256 INT columns make the
per-tuple size 2048 bytes, so each heap page holds exactly one tuple. -/
def c7Desc : TupleDesc := { Fields := List.replicate 256 ageField }

/-- A tuple of `c7Desc`, with no record id. -/
def c7Tuple : Tuple :=
  { Desc := c7Desc, Fields := List.replicate 256 (DBValue.IntField 0),
    Rid := none }

/-- The same tuple carrying the record id of page 0, slot 0 (as the scan
iterator would stamp it). -/
def c7TupleDel : Tuple := { c7Tuple with Rid := some (0, 0) }

/-- The empty heap file over `c7Desc`. -/
def c7File0 : HeapFile :=
  { tupleDesc := c7Desc, pages := [], availablePages := [] }

/-- One `insertTuple` of `c7Tuple` (total on these scenario states). -/
def c7Ins (f : HeapFile) : HeapFile :=
  (f.insertTuple c7Tuple).toOption.getD f

/-- After one insert: one page holding the tuple, flagged available. -/
def c7File1 : HeapFile := c7Ins c7File0

/-- After a second insert: page 0 observed full (flag cleared), new page 1
created.  State: pages `[full, full]`, flags `[false, true]`. -/
def c7File2 : HeapFile := c7Ins c7File1

/-- After deleting the first tuple: page 0 is empty again, but its
availability flag is still false (`deleteTuple` never restores it). -/
def c7File3 : HeapFile := (c7File2.deleteTuple c7TupleDel).toOption.getD c7File2

/-- C7, counterexample: in `c7File3` — reached from the empty file by
three operations of the embedded code — page 0 has occupancy 0 of 1, yet
`insertTuple` allocates a third page instead of reusing it, because page
0's availability flag was cleared when it was once observed full and the
flag is never re-verified. -/
theorem C7_skips_freed_page :
    (∃ pg ∈ c7File3.pages, pg.numUsedSlots < pg.numSlots) ∧
    c7File3.pages.length = 2 ∧
    (c7File3.insertTuple c7Tuple).toOption.map (fun f' => f'.pages.length)
      = some 3 := by
  refine ⟨by decide, by decide, by decide⟩

/-- A fresh one-page file over `c7Desc` with the page flagged available. -/
def c7Fresh : HeapFile :=
  { tupleDesc := c7Desc, pages := [(newHeapPage c7Desc 0).getD default],
    availablePages := [true] }

/-- Witness: `C7_insert_verifies_only_flagged` on concrete files — the
fresh flagged page absorbs the insert without growth, and the file whose
only flagged page is full grows by one page. -/
theorem C7_insert_verifies_only_flagged_witness :
    (∃ f', c7Fresh.insertTuple c7Tuple = .ok f' ∧
      f'.pages.length = c7Fresh.pages.length) ∧
    ∃ f', c7File1.insertTuple c7Tuple = .ok f' ∧
      f'.pages.length = c7File1.pages.length + 1 :=
  ⟨(C7_insert_verifies_only_flagged c7Fresh c7Tuple (by decide) (by decide)
      (by decide) (by decide) (by decide)).1 (by decide),
   (C7_insert_verifies_only_flagged c7File1 c7Tuple (by decide) (by decide)
      (by decide) (by decide) (by decide)).2 (by decide)⟩

/-! ### Claim C8: deleteTuple with a nil record id -/

/-- C8, the code at the failing input: `HeapFile.deleteTuple` on a tuple
whose record id is `nil` returns success without touching the file — it
does not fail with an error as the claim (and the spec, which flags this
very behavior) requires. -/
theorem C8_nil_rid_silent_success (f : HeapFile) (t : Tuple)
    (h : t.Rid = none) : f.deleteTuple t = .ok f := by
  simp [HeapFile.deleteTuple, h]

/-- Witness: `C8_nil_rid_silent_success` on a concrete file and tuple. -/
theorem C8_nil_rid_silent_success_witness :
    c7File2.deleteTuple c7Tuple = .ok c7File2 :=
  C8_nil_rid_silent_success c7File2 c7Tuple rfl

/-! ### Insert and Delete operators (`insert_op.go`, the `DeleteOp` part
of `order_by_op.go`)

The child operator is a finite tuple sequence, modelled as the list of
tuples it has yet to yield (after exhaustion a child keeps yielding Go
`nil`).  `InsertOp` inserts through the `DBFile` interface; the target
file is abstracted as the list of tuples inserted so far (the heap-file
level behavior of `insertTuple` is the subject of C7, and neither
operator inspects the file's reply beyond the error, which the abstract
insert never raises). -/

/-- The `{Fname: "count", Ftype: IntType}` field of both operators' `res`
descriptor. -/
def countField : FieldType :=
  { Fname := "count", TableQualifier := "", Ftype := IntType }

/-- The one-field `{count}` result tuple both operators build from their
`res` descriptor. -/
def countTuple (n : Int) : Tuple :=
  { Desc := { Fields := [countField] },
    Fields := [DBValue.IntField n], Rid := none }

/-- The closure state of `InsertOp.Iterator`: the child's remaining
tuples, the running `counter`, and the abstract target file. -/
structure InsertOpState where
  childRem : List Tuple
  counter : Int
  file : List Tuple
deriving DecidableEq, Repr

/-- The `for` drain loop inside the closure of `InsertOp.Iterator`: pull
the child until `nil`, inserting each tuple and counting it. -/
def insertDrain : List Tuple → Int → List Tuple → Int × List Tuple
  | [], n, file => (n, file)
  | t :: rest, n, file => insertDrain rest (n + 1) (file ++ [t])

/-- One pull of the closure `InsertOp.Iterator` returns: drain whatever
remains of the child, then return the `{count}` tuple.  There is no
consumed flag: the closure returns `some` tuple on every pull and never
returns the `nil` terminator. -/
def insertOpPull (s : InsertOpState) : Option Tuple × InsertOpState :=
  let r := insertDrain s.childRem s.counter s.file
  (some (countTuple r.1), { childRem := [], counter := r.1, file := r.2 })

/-- The drain loop of `DeleteOp.Iterator`, which runs at iterator
construction time (before the first pull): delete each child tuple from
the heap file by record id, counting them; any delete error aborts
iterator construction. -/
def deleteDrain (f : HeapFile) :
    List Tuple → Int → Except HFError (HeapFile × Int)
  | [], n => .ok (f, n)
  | t :: rest, n =>
    match f.deleteTuple t with
    | .error e => .error e
    | .ok f' => deleteDrain f' rest (n + 1)

/-- One pull of the closure `DeleteOp.Iterator` returns: the count tuple,
unconditionally — the closure has no state at all and never returns the
`nil` terminator. -/
def deleteOpPull (count : Int) : Option Tuple :=
  some (countTuple count)

theorem insertDrain_spec (child : List Tuple) (n : Int)
    (file : List Tuple) :
    insertDrain child n file = (n + child.length, file ++ child) := by
  induction child generalizing n file with
  | nil => simp [insertDrain]
  | cons t rest ih =>
    rw [insertDrain, ih]
    simp
    omega

/-- The first-pull state of an `InsertOp` iterator over the given child
and file. -/
def insertOpInit (child file : List Tuple) : InsertOpState :=
  { childRem := child, counter := 0, file := file }

/-- C6, counterexample: with a one-tuple child, the first pull of the
`InsertOp` iterator yields `{count = 1}` — and so does the second pull,
instead of the `nil` terminator the claim requires; `DeleteOp`'s closure
likewise never yields `nil`. -/
theorem C6_second_pull_not_null :
    (insertOpPull (insertOpInit [ageTuple] [])).1 = some (countTuple 1) ∧
    (insertOpPull (insertOpPull (insertOpInit [ageTuple] [])).2).1 =
      some (countTuple 1) ∧
    (insertOpPull (insertOpPull (insertOpInit [ageTuple] [])).2).1 ≠
      none ∧
    deleteOpPull 1 ≠ none := by
  refine ⟨by decide, by decide, by decide, by decide⟩

/-- C6, amended: the `InsertOp` iterator drains the child on its first
pull, inserting every child tuple into the file, and yields the tuple
`{count}` with the number of inserted tuples; every subsequent pull yields
the same `{count}` tuple again — the sequence is never terminated by
`null`.  `DeleteOp` performs its deletions at iterator construction and
its closure yields `{count}` on every pull, never `null`. -/
theorem C6_count_tuple_every_pull (child file : List Tuple)
    (s : InsertOpState) (hs : s.childRem = []) (n : Int) :
    (insertOpPull (insertOpInit child file) =
      (some (countTuple child.length),
        { childRem := [], counter := child.length,
          file := file ++ child })) ∧
    insertOpPull s = (some (countTuple s.counter), s) ∧
    deleteOpPull n = some (countTuple n) := by
  refine ⟨?_, ?_, rfl⟩
  · rw [insertOpPull]
    simp [insertOpInit, insertDrain_spec]
  · rw [insertOpPull, hs]
    simp [insertDrain]
    cases s with
    | mk c n f =>
      simp at hs
      simp [hs]

/-- Witness: `C6_count_tuple_every_pull` on a one-tuple child and the
drained state that follows the first pull. -/
theorem C6_count_tuple_every_pull_witness :
    (insertOpPull (insertOpInit [ageTuple] []) =
      (some (countTuple 1),
        { childRem := [], counter := 1, file := [ageTuple] })) ∧
    insertOpPull { childRem := [], counter := 1, file := [ageTuple] } =
      (some (countTuple 1),
        { childRem := [], counter := 1, file := [ageTuple] }) ∧
    deleteOpPull 1 = some (countTuple 1) := by
  have h := C6_count_tuple_every_pull [ageTuple] []
    { childRem := [], counter := 1, file := [ageTuple] } rfl 1
  simpa using h

/-! ### AVG aggregation state (`agg_state.go`)

`AddTuple` evaluates the aggregated expression on the input tuple and
casts it to an INT field; the claims quantify over inputs whose expression
values are integers, so the embedding takes the evaluated integer
directly.  The Go field `average` is a `float32`; it stores the converted
running quotient and is never read again (`Finalize` recomputes from `sum`
and `count`), so the model keeps the truncated integer quotient. -/

structure AvgAggState where
  aggAlias : String
  count : Int
  average : Int
  sum : Int
deriving DecidableEq, Repr

/-- `AvgAggState.Init` from `agg_state.go` (the Go field `alias` is
`aggAlias` here — `alias` is reserved in Lean). -/
def AvgAggState.Init (name : String) : AvgAggState :=
  { aggAlias := name, count := 0, average := 0, sum := 0 }

/-- `AvgAggState.GetTupleDesc` from `agg_state.go`. -/
def AvgAggState.GetTupleDesc (a : AvgAggState) : TupleDesc :=
  { Fields := [{ Fname := a.aggAlias, TableQualifier := "",
                 Ftype := IntType }] }

/-- `AvgAggState.AddTuple` from `agg_state.go`:
`a.sum += v; a.average = float32(a.sum / int64(a.count)); a.count += 1`.
The division runs before `count` is incremented, so on the first call
after `Init` it divides by zero — a Go runtime panic, modelled as `none`. -/
def AvgAggState.AddTuple (a : AvgAggState) (v : Int) : Option AvgAggState :=
  let sum := a.sum + v
  if a.count = 0 then none
  else some { a with sum := sum, average := Int.tdiv sum a.count,
                     count := a.count + 1 }

/-- `AvgAggState.Finalize` from `agg_state.go`: the one-field tuple
holding `a.sum / int64(a.count)` (again a divide-by-zero panic when no
tuple was added). -/
def AvgAggState.Finalize (a : AvgAggState) : Option Tuple :=
  if a.count = 0 then none
  else some { Desc := a.GetTupleDesc,
              Fields := [DBValue.IntField (Int.tdiv a.sum a.count)],
              Rid := none }

/-- `AddTuple` once per input value, propagating the panic. -/
def avgFold : AvgAggState → List Int → Option AvgAggState
  | a, [] => some a
  | a, v :: rest => (a.AddTuple v).bind fun a' => avgFold a' rest

/-- C5, the code at the failing input: for every alias and every non-empty
value sequence, the very first `AddTuple` after `Init` evaluates
`a.sum / int64(a.count)` with `count = 0` and panics with a runtime
divide-by-zero — so the Init/AddTuple/Finalize protocol of the claim never
reaches `Finalize`, let alone returns `sum/count`. -/
theorem C5_first_AddTuple_divides_by_zero (name : String) (v : Int)
    (vs : List Int) :
    (AvgAggState.Init name).AddTuple v = none ∧
    avgFold (AvgAggState.Init name) (v :: vs) = none := by
  constructor
  · rw [AvgAggState.AddTuple]
    simp [AvgAggState.Init]
  · rw [avgFold, AvgAggState.AddTuple]
    simp [AvgAggState.Init]

end GoDB
